import Mathlib

set_option maxRecDepth 8000
set_option maxHeartbeats 1000000

namespace Paraviewer

/-! Shallow embedding of the Paraviewer repository (PacificBiosciences),
checked against its natural-language specification.  Python dicts are
modelled as insertion-ordered association lists, JSON payloads as an
inductive value type, filesystem reads as explicit inputs, and raised
exceptions as `Except` errors. -/

/-- Scalar JSON leaves. -/
inductive JAtom where
  | anull
  | astr (s : String)
  | anum (n : Int)
  | abool (b : Bool)
deriving DecidableEq, Repr

/-- An element of a JSON list as consumed by `special_info.py` lines 70-77:
either a scalar or a nested list of scalars (the only nesting depth the
rendering code distinguishes). -/
inductive JItem where
  | atom (a : JAtom)
  | ilist (ys : List JAtom)
deriving DecidableEq, Repr

/-- JSON-like values as decoded by `json.load` inside `utils.unpack_json`,
to the structure the modelled code consults.  For dict values only the key
names are read (`special_info.py` lines 84-88), so `jdictKeys` carries just
those. -/
inductive JVal where
  | jnull
  | jstr (s : String)
  | jnum (n : Int)
  | jbool (b : Bool)
  | jlist (xs : List JItem)
  | jdictKeys (keys : List String)
deriving DecidableEq, Repr

/-- Python `str()` on scalar leaves. -/
def pyAtomStr : JAtom → String
  | .anull => "None"
  | .astr s => s
  | .anum n => toString n
  | .abool b => if b then "True" else "False"

/-- Python `str()` for the scalar values that reach string rendering in
`special_info.py`.  Composite values would render via Python `repr` and are
not exercised by any modelled call site, so they get placeholders. -/
def pyStr : JVal → String
  | .jnull => "None"
  | .jstr s => s
  | .jnum n => toString n
  | .jbool b => if b then "True" else "False"
  | .jlist _ => "<list>"
  | .jdictKeys _ => "<dict>"

/-- Python `str.lower()` restricted to ASCII letters, which is all the data
(region names, gene names) contains. -/
def pyToLower (s : String) : String :=
  String.mk (s.data.map Char.toLower)

/-- Python substring test `pat in s` on the underlying character list. -/
def strContainsSub (s pat : String) : Bool :=
  s.data.tails.any (fun t => pat.data.isPrefixOf t)

/-- Per-region call-metadata record: one decoded JSON object. -/
abbrev RegionData := List (String × JVal)

/-- Fields of `utils.ParaphaseResults` that `special_info.py` reads:
`F8_INV` (inversion-call text, `""` when absent) and `HAVANNO`
(region name to annotation text; the empty list models both the `""` default
of the paraphase flow and an empty dict, which are equally falsy). -/
structure ParaphaseResults where
  Sample : String
  F8_INV : String
  HAVANNO : List (String × String)
deriving DecidableEq, Repr

/-- Python `key in rd and rd[key] is not None`
(`special_info.get_copy_number`, lines 13-20). -/
def presentNonNull (key : String) (rd : RegionData) : Option JVal :=
  match rd.lookup key with
  | some v => if v = .jnull then none else some v
  | none => none

/-- `special_info.get_copy_number`: prefer `gene_cn`, then `total_cn`, then
`highest_total_cn`; otherwise the empty string.  Total by construction:
no combination of present/absent/null fields errors. -/
def get_copy_number (rd : RegionData) : JVal :=
  match presentNonNull "gene_cn" rd with
  | some v => v
  | none =>
    match presentNonNull "total_cn" rd with
    | some v => v
    | none =>
      match presentNonNull "highest_total_cn" rd with
      | some v => v
      | none => .jstr ""

/-- `special_info.define_special_fields`: the allow-list table of
medically-relevant field names, keyed by gene-region group. -/
def define_special_fields : List (String × List String) :=
  [("CFH", ["fusions_called"]),
   ("F8", ["sv_called"]),
   ("GBA", ["fusions_called"]),
   ("HBA", ["genotype", "sv_called", "alleles_final"]),
   ("IKBKG", ["deletion_haplotypes"]),
   ("NEB", ["alleles_final"]),
   ("OPN1LW", ["annotated_haplotypes", "alleles_final", "annotated_alleles"]),
   ("RCCX", ["alleles_final", "ending_hap", "annotated_alleles"]),
   ("SMN1", ["smn1_cn", "smn2_cn", "smn2_del78_cn"]),
   ("all_regions", [])]

/-- Lexicographic code-point comparison on character lists, Python's string
ordering. -/
def charListLe : List Char → List Char → Bool
  | [], _ => true
  | _ :: _, [] => false
  | a :: as, b :: bs =>
    if a.toNat < b.toNat then true
    else if b.toNat < a.toNat then false
    else charListLe as bs

/-- Python `a <= b` on strings. -/
def strLeB (a b : String) : Bool := charListLe a.data b.data

/-- Insertion step of a stable sort on strings, mirroring Python `sorted`. -/
def insertSorted (x : String) : List String → List String
  | [] => [x]
  | y :: ys => if strLeB x y then x :: y :: ys else y :: insertSorted x ys

/-- Python `sorted(...)` on a list of strings (lexicographic). -/
def sortStrings (l : List String) : List String := l.foldr insertSorted []

/-- `sorted(set([str(x) for x in chain(*cmrg_special_fields.values())]))`
(`special_info.get_special_info`, lines 59-61). -/
def sorted_special_field_names : List String :=
  sortStrings ((define_special_fields.map Prod.snd).flatten.eraseDups)

/-- Python list rendering (`special_info.py` lines 70-77): elements joined by
`", "`, nested lists joined by `" | "`.  A non-string scalar element would
raise TypeError in Python; such data does not occur in the modelled inputs
and is rendered with `pyAtomStr` here. -/
def joinListField (xs : List JItem) : String :=
  String.intercalate ", " (xs.map (fun f =>
    match f with
    | .ilist ys => String.intercalate " | " (ys.map pyAtomStr)
    | .atom a => pyAtomStr a))

/-- One allow-listed field of `special_info.get_special_info` (lines 62-94):
`none` when the field is absent, null, `"NA"`, an empty list or an empty
dict; otherwise its rendered text. -/
def renderSpecialField (rd : RegionData) (name : String) : Option String :=
  match rd.lookup name with
  | none => none
  | some data =>
    if data = .jnull ∨ data = .jstr "NA" then none
    else
      match data with
      | .jlist xs =>
        if xs = [] then none
        else some (name ++ ": " ++ joinListField xs)
      | .jdictKeys keys =>
        if keys = [] then none
        else some (name ++ "," ++ String.intercalate ", " keys)
      | _ => some (name ++ "," ++ pyStr data)

/-- Generic allow-list extraction phase of `special_info.get_special_info`
(lines 57-94): the rendered strings in sorted field-name order. -/
def generic_special_info (rd : RegionData) : List String :=
  sorted_special_field_names.filterMap (renderSpecialField rd)

/-- Python `str.strip(", ")`: drop leading and trailing commas and spaces. -/
def stripCommaSpace (s : String) : String :=
  let p := fun c => c == ',' || c == ' '
  String.mk (((s.data.dropWhile p).reverse.dropWhile p).reverse)

/-- Whether the region identifier indicates the inversion-prone gene:
Python `"f8" in region_name.lower()` (`special_info.py` line 97). -/
def isF8Region (region_name : String) : Bool :=
  strContainsSub (pyToLower region_name) "f8"

/-- `special_info.get_special_info`: copy number plus special-info text with
the F8-inversion and HAVANNO override rules (lines 96-110).  Note the code
appends `F8_INV`, when truthy, without consulting `is_f8`. -/
def get_special_info (region_name : String) (rd : RegionData)
    (pr : ParaphaseResults) : JVal × String :=
  let total_cn := get_copy_number rd
  let is_f8 := isF8Region region_name
  let si0 := if is_f8 then [] else generic_special_info rd
  let si :=
    if pr.F8_INV ≠ "" then si0 ++ [pr.F8_INV]
    else if is_f8 = false then
      match pr.HAVANNO.lookup region_name with
      | some t => si0 ++ [t]
      | none => si0
    else si0
  (total_cn, stripCommaSpace (String.intercalate ";" si))

/-- Python `key not in rd or rd[key] is None`. -/
abbrev absentOrNull (key : String) (rd : RegionData) : Prop :=
  rd.lookup key = none ∨ rd.lookup key = some .jnull

/-- `__main__.validate_include_exclude_lists` (lines 157-191): `none` models
the aborting configuration error (`logger.error` + `sys.exit(1)` before any
partitioning); `some` returns the lower-cased (and, when `valid_regions` is
non-empty, validity-filtered) lists.  `valid_regions = []` models both a
missing and an empty (falsy) `valid_regions` argument. -/
def validate_include_exclude_lists (include_list exclude_list : Option (List String))
    (valid_regions : List String) : Option (List String × List String) :=
  let inc := include_list.getD []
  let exc := exclude_list.getD []
  if inc.any (fun item => !exc.isEmpty && exc.contains item) then none
  else
    let incL := inc.map pyToLower
    let excL := exc.map pyToLower
    if valid_regions.isEmpty then some (incL, excL)
    else
      let validL := valid_regions.map pyToLower
      some (incL.filter (fun x => validL.contains x),
            excL.filter (fun x => validL.contains x))

theorem list_contains_of_mem {l : List String} {a : String} (h : a ∈ l) :
    l.contains a = true :=
  List.elem_eq_true_of_mem h

theorem intercalate_singleton (sep x : String) :
    String.intercalate sep [x] = x := rfl

/-- C7: for every region-metadata record the copy-number value follows the
deterministic fallback gene_cn, then total_cn, then highest_total_cn, then
the empty string; `get_copy_number` is total, so no combination of
present/absent/null fields errors. -/
theorem c7_copy_number_fallback (rd : RegionData) :
    (∀ v, rd.lookup "gene_cn" = some v → v ≠ .jnull → get_copy_number rd = v) ∧
    (absentOrNull "gene_cn" rd →
      ∀ v, rd.lookup "total_cn" = some v → v ≠ .jnull → get_copy_number rd = v) ∧
    (absentOrNull "gene_cn" rd → absentOrNull "total_cn" rd →
      ∀ v, rd.lookup "highest_total_cn" = some v → v ≠ .jnull →
        get_copy_number rd = v) ∧
    (absentOrNull "gene_cn" rd → absentOrNull "total_cn" rd →
      absentOrNull "highest_total_cn" rd → get_copy_number rd = .jstr "") := by
  refine ⟨?_, ?_, ?_, ?_⟩
  · intro v hv hnn
    simp [get_copy_number, presentNonNull, hv, hnn]
  · rintro (h | h) v hv hnn <;>
      simp [get_copy_number, presentNonNull, h, hv, hnn]
  · rintro (h1 | h1) (h2 | h2) v hv hnn <;>
      simp [get_copy_number, presentNonNull, h1, h2, hv, hnn]
  · rintro (h1 | h1) (h2 | h2) (h3 | h3) <;>
      simp [get_copy_number, presentNonNull, h1, h2, h3]

/-- Witness for C7: a record with only `highest_total_cn` set yields that
value. -/
theorem c7_copy_number_fallback_witness :
    get_copy_number [("highest_total_cn", .jnum 4)] = .jnum 4 :=
  (c7_copy_number_fallback [("highest_total_cn", .jnum 4)]).2.2.1
    (by decide) (by decide) (.jnum 4) (by decide) (by decide)

/-- C8: region "SMN1" with call-metadata smn1_cn = 2, smn2_cn = 3 and no
gene/total/highest copy-number field yields copy-number `""` and
special-info `"smn1_cn,2;smn2_cn,3"`; the second conjunct shows the
semicolon order comes from the alphabetical field-name sort, not from the
input record order. -/
theorem c8_smn1_example :
    get_special_info "SMN1" [("smn1_cn", .jnum 2), ("smn2_cn", .jnum 3)]
        ⟨"s1", "", []⟩ = (.jstr "", "smn1_cn,2;smn2_cn,3") ∧
    get_special_info "SMN1" [("smn2_cn", .jnum 3), ("smn1_cn", .jnum 2)]
        ⟨"s1", "", []⟩ = (.jstr "", "smn1_cn,2;smn2_cn,3") := by
  constructor <;> rfl

/-- Counterexample to C4: for region "SMN1" (identifier does not contain
"f8") with a non-empty inversion-call text and a HAVANNO entry for "SMN1",
the code appends the inversion-call text (line 100 of `special_info.py` is
not guarded by `is_f8`) and skips the HAVANNO annotation, whereas the claim
says a non-f8 region never carries the inversion text and its annotation is
appended whenever present. -/
theorem c4_counterexample :
    (get_special_info "SMN1" []
        ⟨"s1", "F8 inversion detected,",
          [("SMN1", "hap1,2 possible pathogenic vars")]⟩).2
      = "F8 inversion detected" ∧
    (get_special_info "SMN1" []
        ⟨"s1", "F8 inversion detected,",
          [("SMN1", "hap1,2 possible pathogenic vars")]⟩).2
      ≠ "hap1,2 possible pathogenic vars" := by
  refine ⟨by rfl, by decide⟩

/-- C4 as amended: after generic extraction, (a) an f8 region discards all
generic special-info and shows the inversion text when available, or nothing
otherwise; (b) the inversion text, when available, is appended for every
region, f8 or not, and then the HAVANNO annotation is not consulted; (c) a
non-f8 region gets its HAVANNO annotation appended only when the inversion
text is unavailable. -/
theorem c4_amended (region_name : String) (rd : RegionData)
    (pr : ParaphaseResults) :
    (isF8Region region_name = true → pr.F8_INV ≠ "" →
      (get_special_info region_name rd pr).2 = stripCommaSpace pr.F8_INV) ∧
    (isF8Region region_name = true → pr.F8_INV = "" →
      (get_special_info region_name rd pr).2 = "") ∧
    (isF8Region region_name = false → pr.F8_INV ≠ "" →
      (get_special_info region_name rd pr).2 =
        stripCommaSpace (String.intercalate ";"
          (generic_special_info rd ++ [pr.F8_INV]))) ∧
    (isF8Region region_name = false → pr.F8_INV = "" →
      (get_special_info region_name rd pr).2 =
        stripCommaSpace (String.intercalate ";"
          (generic_special_info rd ++ (pr.HAVANNO.lookup region_name).toList))) := by
  refine ⟨?_, ?_, ?_, ?_⟩
  · intro hf hinv
    simp [get_special_info, hf, hinv, intercalate_singleton]
  · intro hf hinv
    simp [get_special_info, hf, hinv]
    rfl
  · intro hf hinv
    simp [get_special_info, hf, hinv]
  · intro hf hinv
    cases hl : pr.HAVANNO.lookup region_name <;>
      simp [get_special_info, hf, hinv, hl]

/-- Witness for C4 as amended: branch (b) at a concrete non-f8 region with
inversion text available. -/
theorem c4_amended_witness :
    (get_special_info "SMN1" []
        ⟨"s1", "inv,", [("SMN1", "anno")]⟩).2 =
      stripCommaSpace (String.intercalate ";"
        (generic_special_info [] ++ ["inv,"])) :=
  (c4_amended "SMN1" [] ⟨"s1", "inv,", [("SMN1", "anno")]⟩).2.2.1
    (by decide) (by decide)

/-- Counterexample to C9: include-list ["SMN1"] and exclude-list ["smn1"]
name the same region identifier up to case (membership matching is
case-insensitive), yet validation succeeds — the duplicate check compares
verbatim strings before lower-casing — and the identifier ends up in both
returned lists. -/
theorem c9_counterexample :
    validate_include_exclude_lists (some ["SMN1"]) (some ["smn1"]) ["smn1"]
        = some (["smn1"], ["smn1"]) ∧
    pyToLower "SMN1" = pyToLower "smn1" := by
  refine ⟨by rfl, by rfl⟩

/-- C9 as amended: supplying the identical string in both the include and
the exclude list is a configuration error (process exit) reported by
validation, which runs before any partitioning; identifiers differing only
in case are not flagged. -/
theorem c9_amended (inc exc valid : List String) (item : String)
    (hi : item ∈ inc) (he : item ∈ exc) :
    validate_include_exclude_lists (some inc) (some exc) valid = none := by
  have hne : exc.isEmpty = false := by
    cases exc with
    | nil => cases he
    | cons a l => rfl
  have hany : inc.any (fun it => !exc.isEmpty && exc.contains it) = true := by
    refine List.any_eq_true.mpr ⟨item, hi, ?_⟩
    rw [hne, list_contains_of_mem he]
    rfl
  simp only [validate_include_exclude_lists, Option.getD]
  rw [hany]
  rfl

/-- Witness for C9 as amended: the spec's own example, include ["smn1"] and
exclude ["smn1"], is rejected. -/
theorem c9_amended_witness :
    validate_include_exclude_lists (some ["smn1"]) (some ["smn1"]) ["smn1"]
        = none :=
  c9_amended ["smn1"] ["smn1"] ["smn1"] "smn1" (by decide) (by decide)

/-! Read Partitioner: `utils.split_bam` (lines 231-321).  The streaming pass
is a fold over the reads; the on-disk content of each output path, the
LRU handle cache of `cachetools.LRUCache(maxsize=5)`, the
`haplotype_read_counts` dict and `result_abs_paths` are carried explicitly,
and the observable file lifecycle is recorded as an event trace. -/

/-- One aligned read as consumed by `utils.split_bam`: the RN and HP tags
(string-valued, optional) plus an opaque payload identity. -/
structure BamRead where
  rn : Option String
  hp : Option String
  rid : Nat
deriving DecidableEq, Repr

/-- Effective haplotype group: Python defaults to "unknown" when the HP tag
is absent (`utils.py` lines 280-282). -/
def effHp (read : BamRead) : String := read.hp.getD "unknown"

/-- Record of one read actually written during the streaming pass. -/
structure WriteRec where
  region : String
  ehp : String
  rid : Nat
deriving DecidableEq, Repr

/-- Observable events of one `split_bam` run.  `evictClose` is the LRU
eviction performed by `cachetools.LRUCache.__setitem__`: the cache drops its
only reference to the pysam writer, whose CPython finalizer flushes and
closes the file; `closeW` is the explicit close loop of the `finally` block;
`indexE` is `pysam.index` on a produced output path. -/
inductive SbEvent where
  | openW (r : String)
  | writeE (r : String) (rid : Nat)
  | evictClose (r : String)
  | closeW (r : String)
  | indexE (r : String)
deriving DecidableEq, Repr

/-- State of `utils.split_bam`: `cache` is the LRU cache of open writers
(most recently used first, capacity 5); `counts` is
`haplotype_read_counts` — keyed by haplotype value alone; `files` maps each
region's output path to the read ids currently in that file (reset by every
`"wb"` open); `results` is `result_abs_paths` in insertion order; `written`
records every read written, in stream order. -/
structure SbState where
  cache : List String
  counts : List (String × Nat)
  files : List (String × List Nat)
  results : List String
  written : List WriteRec
  events : List SbEvent
deriving DecidableEq, Repr

def initSbState : SbState := ⟨[], [], [], [], [], []⟩

/-- Python dict assignment `d[k] = v` on an insertion-ordered dict. -/
def setAssoc (k : String) (v : α) : List (String × α) → List (String × α)
  | [] => [(k, v)]
  | (k', v') :: rest =>
    if k' = k then (k, v) :: rest else (k', v') :: setAssoc k v rest

/-- Python `d[k] += 1` for a key already present. -/
def bumpAssoc (k : String) : List (String × Nat) → List (String × Nat)
  | [] => []
  | (k', v) :: rest =>
    if k' = k then (k', v + 1) :: rest else (k', v) :: bumpAssoc k rest

/-- Append one read id to the file at key `k` (the pysam `write` call on the
cached handle). -/
def appendAssoc (k : String) (x : Nat) : List (String × List Nat) → List (String × List Nat)
  | [] => [(k, [x])]
  | (k', l) :: rest =>
    if k' = k then (k', l ++ [x]) :: rest else (k', l) :: appendAssoc k x rest

/-- `LRUCache.__getitem__` recency update: move the key to the
most-recently-used position. -/
def lruTouch (k : String) (cache : List String) : List String :=
  k :: cache.erase k

/-- RN-tag presence plus the include/exclude filters of `utils.split_bam`
(lines 267-277): `none` when the read is skipped, otherwise its region. -/
def passRegion (inc exc : List String) (read : BamRead) : Option String :=
  match read.rn with
  | none => none
  | some region =>
    if !inc.isEmpty && !inc.contains (pyToLower region) then none
    else if !exc.isEmpty && exc.contains (pyToLower region) then none
    else some region

/-- Python `if hp and hp not in haplotype_read_counts: ...[hp] = 0`
(`utils.py` lines 284-285). -/
def quotaInit (hp : String) (counts : List (String × Nat)) : List (String × Nat) :=
  if hp ≠ "" ∧ counts.lookup hp = none then counts ++ [(hp, 0)] else counts

/-- Creation of a region's writer (`utils.py` lines 290-298): the output
path is opened in `"wb"` mode — truncating any previous content at that
path — the new handle is inserted into the LRU cache, evicting the least
recently used handle when the cache already holds 5, and the output path is
recorded in `result_abs_paths`. -/
def openRegion (st : SbState) (region : String) : SbState :=
  let evicted := if 5 ≤ st.cache.length then st.cache.getLast? else none
  let cache1 := if 5 ≤ st.cache.length then st.cache.dropLast else st.cache
  { st with
    cache := region :: cache1
    files := setAssoc region [] st.files
    results := if region ∈ st.results then st.results else st.results ++ [region]
    events := st.events ++ [SbEvent.openW region] ++
      (evicted.map SbEvent.evictClose).toList }

/-- `region_files_cache[region_name].write(read)` (`utils.py` line 300):
the getitem updates LRU recency, the write appends to the file. -/
def writeRead (st : SbState) (region : String) (read : BamRead) : SbState :=
  { st with
    cache := lruTouch region st.cache
    files := appendAssoc region read.rid st.files
    written := st.written ++ [⟨region, effHp read, read.rid⟩]
    events := st.events ++ [SbEvent.writeE region read.rid] }

/-- One iteration of the read loop of `utils.split_bam` (lines 267-302). -/
def processRead (inc exc : List String) (maxReads : Nat) (st : SbState)
    (read : BamRead) : SbState :=
  match passRegion inc exc read with
  | none => st
  | some region =>
    let hp := effHp read
    let counts := quotaInit hp st.counts
    let st0 := { st with counts := counts }
    if hp ≠ "" ∧ maxReads ≤ (counts.lookup hp).getD 0 then st0
    else
      let st1 := if region ∈ st0.cache then st0 else openRegion st0 region
      let st2 := writeRead st1 region read
      if hp ≠ "" then { st2 with counts := bumpAssoc hp st2.counts } else st2

/-- The streaming pass of `utils.split_bam`. -/
def sbStream (inc exc : List String) (maxReads : Nat) (reads : List BamRead) : SbState :=
  reads.foldl (processRead inc exc maxReads) initSbState

/-- Full `utils.split_bam` run: stream pass, then the `finally` block closes
every handle still in the cache, then `pysam.index` runs for every entry of
`result_abs_paths` (lines 260-321). -/
def split_bam (inc exc : List String) (maxReads : Nat) (reads : List BamRead) : SbState :=
  let st := sbStream inc exc maxReads reads
  { st with events := st.events ++ st.cache.map SbEvent.closeW ++
      st.results.map SbEvent.indexE }

/-- Read ids retained for a region during the write pass. -/
def retainedFor (st : SbState) (r : String) : List Nat :=
  (st.written.filter (fun w => w.region == r)).map WriteRec.rid

/-- Seven-read stream over six distinct regions: region "g1" is written,
evicted by the five fresh regions "g2".."g6", and then revisited. -/
def sixRegionReads : List BamRead :=
  [⟨some "g1", some "h", 0⟩, ⟨some "g2", some "h", 1⟩, ⟨some "g3", some "h", 2⟩,
   ⟨some "g4", some "h", 3⟩, ⟨some "g5", some "h", 4⟩, ⟨some "g6", some "h", 5⟩,
   ⟨some "g1", some "h", 6⟩]

/-- Counterexample to C1: in the `sixRegionReads` run (no include/exclude
filters, quota 100), read 0 of region "g1" passes every filter and is
written, the cache evicts "g1", and the revisit reopens the path in
truncate mode, so the final "g1" data file holds only read 6: read 0 is
silently lost, even though the PartitionOutput entry for "g1" is retained.
This refutes the claim that no read data is lost on eviction when the
number of distinct regions exceeds the cache capacity. -/
theorem c1_counterexample :
    (⟨"g1", "h", 0⟩ : WriteRec) ∈ (split_bam [] [] 100 sixRegionReads).written ∧
    (split_bam [] [] 100 sixRegionReads).files.lookup "g1" = some [6] ∧
    SbEvent.evictClose "g1" ∈ (split_bam [] [] 100 sixRegionReads).events ∧
    "g1" ∈ (split_bam [] [] 100 sixRegionReads).results := by
  decide

/-- Counterexample to C2: in the same run, the reads retained for region
"g1" during the write pass are 0 and 6, but the data file that the index is
built from holds only read 6 — re-reading output plus index cannot yield the
retained read set and count. -/
theorem c2_counterexample :
    retainedFor (split_bam [] [] 100 sixRegionReads) "g1" = [0, 6] ∧
    (split_bam [] [] 100 sixRegionReads).files.lookup "g1" = some [6] := by
  decide

/-- Counterexample to C3: two regions, one haplotype value "h", quota 1.
Read 1 of region "gB" passes the region filters and region "gB" has
retained no read of haplotype "h", yet the read is dropped, because
`haplotype_read_counts` is keyed by haplotype alone and region "gA" already
consumed the quota.  This refutes "dropped exactly when that read's own
region's count for that haplotype has already reached the maximum". -/
theorem c3_counterexample :
    passRegion [] [] ⟨some "gB", some "h", 1⟩ = some "gB" ∧
    (split_bam [] [] 1 [⟨some "gA", some "h", 0⟩, ⟨some "gB", some "h", 1⟩]).written
      = [⟨"gA", "h", 0⟩] := by
  decide

theorem lookup_setAssoc_self {α : Type} (k : String) (v : α) :
    ∀ l : List (String × α), (setAssoc k v l).lookup k = some v := by
  intro l
  induction l with
  | nil => simp [setAssoc]
  | cons p rest ih =>
    obtain ⟨k', v'⟩ := p
    by_cases h : k' = k
    · subst h
      simp [setAssoc]
    · simp only [setAssoc, if_neg h, List.lookup_cons,
        beq_eq_false_iff_ne.mpr (Ne.symm h)]
      exact ih

theorem lookup_setAssoc_ne {α : Type} {r k : String} (v : α) (hne : r ≠ k) :
    ∀ l : List (String × α), (setAssoc k v l).lookup r = l.lookup r := by
  intro l
  induction l with
  | nil => simp [setAssoc, List.lookup_cons, beq_eq_false_iff_ne.mpr hne]
  | cons p rest ih =>
    obtain ⟨k', v'⟩ := p
    by_cases h : k' = k
    · subst h
      simp [setAssoc, List.lookup_cons, beq_eq_false_iff_ne.mpr hne]
    · simp only [setAssoc, if_neg h, List.lookup_cons]
      cases hrk : r == k' <;> simp [ih]

theorem lookup_appendAssoc_self {k : String} (x : Nat) {xs : List Nat} :
    ∀ {l : List (String × List Nat)}, l.lookup k = some xs →
      (appendAssoc k x l).lookup k = some (xs ++ [x]) := by
  intro l
  induction l with
  | nil => intro h; cases h
  | cons p rest ih =>
    obtain ⟨k', v'⟩ := p
    by_cases h : k' = k
    · subst h
      intro hl
      rw [List.lookup_cons_self] at hl
      cases hl
      simp [appendAssoc]
    · intro hl
      rw [List.lookup_cons, beq_eq_false_iff_ne.mpr (Ne.symm h)] at hl
      simp only [appendAssoc, if_neg h, List.lookup_cons,
        beq_eq_false_iff_ne.mpr (Ne.symm h)]
      exact ih hl

theorem lookup_appendAssoc_ne {r k : String} (x : Nat) (hne : r ≠ k) :
    ∀ l : List (String × List Nat),
      (appendAssoc k x l).lookup r = l.lookup r := by
  intro l
  induction l with
  | nil => simp [appendAssoc, List.lookup_cons, beq_eq_false_iff_ne.mpr hne]
  | cons p rest ih =>
    obtain ⟨k', v'⟩ := p
    by_cases h : k' = k
    · subst h
      simp [appendAssoc, List.lookup_cons, beq_eq_false_iff_ne.mpr hne]
    · simp only [appendAssoc, if_neg h, List.lookup_cons]
      cases hrk : r == k' <;> simp [ih]

theorem lookup_bumpAssoc_self {k : String} {n : Nat} :
    ∀ {l : List (String × Nat)}, l.lookup k = some n →
      (bumpAssoc k l).lookup k = some (n + 1) := by
  intro l
  induction l with
  | nil => intro h; cases h
  | cons p rest ih =>
    obtain ⟨k', v'⟩ := p
    by_cases h : k' = k
    · subst h
      intro hl
      rw [List.lookup_cons_self] at hl
      cases hl
      simp [bumpAssoc]
    · intro hl
      rw [List.lookup_cons, beq_eq_false_iff_ne.mpr (Ne.symm h)] at hl
      simp only [bumpAssoc, if_neg h, List.lookup_cons,
        beq_eq_false_iff_ne.mpr (Ne.symm h)]
      exact ih hl

theorem lookup_bumpAssoc_ne {r k : String} (hne : r ≠ k) :
    ∀ l : List (String × Nat), (bumpAssoc k l).lookup r = l.lookup r := by
  intro l
  induction l with
  | nil => simp [bumpAssoc]
  | cons p rest ih =>
    obtain ⟨k', v'⟩ := p
    by_cases h : k' = k
    · subst h
      simp [bumpAssoc, List.lookup_cons, beq_eq_false_iff_ne.mpr hne]
    · simp only [bumpAssoc, if_neg h, List.lookup_cons]
      cases hrk : r == k' <;> simp [ih]

theorem quotaInit_getD (hp h : String) (counts : List (String × Nat)) :
    ((quotaInit hp counts).lookup h).getD 0 = (counts.lookup h).getD 0 := by
  unfold quotaInit
  split
  · rename_i hc
    rw [List.lookup_append]
    by_cases hh : h = hp
    · subst hh
      rw [hc.2]
      simp
    · rw [show ([(hp, (0 : Nat))].lookup h) = none by
        simp [List.lookup_cons, beq_eq_false_iff_ne.mpr hh]]
      cases counts.lookup h <;> rfl
  · rfl

theorem quotaInit_lookup_isSome (hp : String) (hne : hp ≠ "")
    (counts : List (String × Nat)) :
    ((quotaInit hp counts).lookup hp).isSome = true := by
  unfold quotaInit
  split
  · rename_i hc
    rw [List.lookup_append, hc.2]
    simp
  · rename_i hc
    rw [not_and_or] at hc
    rcases hc with hc | hc
    · exact absurd hne (by simpa using hc)
    · cases hl : counts.lookup hp with
      | none => exact absurd hl hc
      | some n => rfl

theorem mem_lruTouch_iff {x k : String} {cache : List String} :
    x ∈ lruTouch k cache ↔ (x = k ∨ x ∈ cache) := by
  unfold lruTouch
  constructor
  · intro hx
    rcases List.mem_cons.mp hx with h | h
    · exact Or.inl h
    · exact Or.inr ((List.erase_sublist k cache).subset h)
  · intro hx
    by_cases hxk : x = k
    · exact hxk ▸ List.mem_cons_self k _
    · rcases hx with h | h
      · exact absurd h hxk
      · exact List.mem_cons_of_mem k ((List.mem_erase_of_ne hxk).mpr h)

theorem foldl_preserves_mem {σ β : Type} (f : σ → β → σ) (P : σ → Prop) :
    ∀ (l : List β) (s : σ), (∀ s' a, a ∈ l → P s' → P (f s' a)) → P s →
      P (l.foldl f s) := by
  intro l
  induction l with
  | nil => intro s _ h; exact h
  | cons a t ih =>
    intro s hstep h
    exact ih (f s a) (fun s' b hb => hstep s' b (List.mem_cons_of_mem a hb))
      (hstep s a (List.mem_cons_self a t) h)

/-- State after the quota-counter initialization line. -/
def quotaState (st : SbState) (hp : String) : SbState :=
  { st with counts := quotaInit hp st.counts }

/-- State holding the writer for `region`: either it was cached already, or
it is created via `openRegion`. -/
def writerState (st : SbState) (region hp : String) : SbState :=
  if region ∈ st.cache then quotaState st hp
  else openRegion (quotaState st hp) region

theorem quotaState_cache (st : SbState) (hp : String) :
    (quotaState st hp).cache = st.cache := rfl

theorem quotaState_results (st : SbState) (hp : String) :
    (quotaState st hp).results = st.results := rfl

theorem quotaState_events (st : SbState) (hp : String) :
    (quotaState st hp).events = st.events := rfl

theorem quotaState_files (st : SbState) (hp : String) :
    (quotaState st hp).files = st.files := rfl

theorem quotaState_written (st : SbState) (hp : String) :
    (quotaState st hp).written = st.written := rfl

theorem openRegion_cache (st : SbState) (region : String) :
    (openRegion st region).cache
      = region :: (if 5 ≤ st.cache.length then st.cache.dropLast else st.cache) := rfl

theorem openRegion_counts (st : SbState) (region : String) :
    (openRegion st region).counts = st.counts := rfl

theorem openRegion_files (st : SbState) (region : String) :
    (openRegion st region).files = setAssoc region [] st.files := rfl

theorem openRegion_results (st : SbState) (region : String) :
    (openRegion st region).results
      = if region ∈ st.results then st.results else st.results ++ [region] := rfl

theorem openRegion_written (st : SbState) (region : String) :
    (openRegion st region).written = st.written := rfl

theorem openRegion_events (st : SbState) (region : String) :
    (openRegion st region).events
      = st.events ++ [SbEvent.openW region] ++
        (((if 5 ≤ st.cache.length then st.cache.getLast? else none).map
          SbEvent.evictClose).toList) := rfl

theorem mem_openRegion_results_iff {st : SbState} {region r : String} :
    r ∈ (openRegion st region).results ↔ (r ∈ st.results ∨ r = region) := by
  rw [openRegion_results]
  split
  · rename_i hmem
    constructor
    · exact Or.inl
    · rintro (h | rfl)
      · exact h
      · exact hmem
  · simp [List.mem_append]

theorem mem_openRegion_cache {st : SbState} {region r : String}
    (hr : r ∈ (openRegion st region).cache) : r = region ∨ r ∈ st.cache := by
  rw [openRegion_cache] at hr
  rcases List.mem_cons.mp hr with h | h
  · exact Or.inl h
  · right
    revert h
    split
    · exact fun h => (List.dropLast_sublist _).subset h
    · exact id

theorem mem_openRegion_events {st : SbState} {region : String} {ev : SbEvent}
    (hr : ev ∈ (openRegion st region).events) :
    ev ∈ st.events ∨ ev = SbEvent.openW region ∨
      ∃ e, st.cache.getLast? = some e ∧ ev = SbEvent.evictClose e := by
  rw [openRegion_events] at hr
  rcases List.mem_append.mp hr with h | h
  · rcases List.mem_append.mp h with h | h
    · exact Or.inl h
    · exact Or.inr (Or.inl (List.mem_singleton.mp h))
  · right; right
    revert h
    split
    · cases hgl : st.cache.getLast? with
      | none => intro h; simp at h
      | some e =>
        intro h
        simp at h
        exact ⟨e, rfl, h⟩
    · intro h; simp at h

theorem writerState_counts (st : SbState) (region hp : String) :
    (writerState st region hp).counts = quotaInit hp st.counts := by
  unfold writerState
  split <;> rfl

theorem writerState_written (st : SbState) (region hp : String) :
    (writerState st region hp).written = st.written := by
  unfold writerState
  split
  · rfl
  · rw [openRegion_written, quotaState_written]

theorem processRead_skip {inc exc : List String} {maxReads : Nat}
    {st : SbState} {read : BamRead}
    (hpass : passRegion inc exc read = none) :
    processRead inc exc maxReads st read = st := by
  unfold processRead
  rw [hpass]

theorem processRead_hit {inc exc : List String} {maxReads : Nat}
    {st : SbState} {read : BamRead} {region : String}
    (hpass : passRegion inc exc read = some region)
    (hq : effHp read ≠ "" ∧
      maxReads ≤ ((quotaInit (effHp read) st.counts).lookup (effHp read)).getD 0) :
    processRead inc exc maxReads st read = quotaState st (effHp read) := by
  unfold processRead
  rw [hpass]
  dsimp only
  rw [if_pos hq]
  rfl

theorem processRead_write_eq {inc exc : List String} {maxReads : Nat}
    {st : SbState} {read : BamRead} {region : String}
    (hpass : passRegion inc exc read = some region)
    (hq : ¬(effHp read ≠ "" ∧
      maxReads ≤ ((quotaInit (effHp read) st.counts).lookup (effHp read)).getD 0)) :
    processRead inc exc maxReads st read =
      (if effHp read ≠ "" then
        { writeRead (writerState st region (effHp read)) region read with
          counts := bumpAssoc (effHp read)
            (writeRead (writerState st region (effHp read)) region read).counts }
      else writeRead (writerState st region (effHp read)) region read) := by
  unfold processRead writerState quotaState
  rw [hpass]
  dsimp only
  rw [if_neg hq]

theorem processRead_write_proj {inc exc : List String} {maxReads : Nat}
    {st : SbState} {read : BamRead} {region : String}
    (hpass : passRegion inc exc read = some region)
    (hq : ¬(effHp read ≠ "" ∧
      maxReads ≤ ((quotaInit (effHp read) st.counts).lookup (effHp read)).getD 0)) :
    (processRead inc exc maxReads st read).cache
        = lruTouch region (writerState st region (effHp read)).cache ∧
    (processRead inc exc maxReads st read).files
        = appendAssoc region read.rid (writerState st region (effHp read)).files ∧
    (processRead inc exc maxReads st read).results
        = (writerState st region (effHp read)).results ∧
    (processRead inc exc maxReads st read).written
        = st.written ++ [⟨region, effHp read, read.rid⟩] ∧
    (processRead inc exc maxReads st read).events
        = (writerState st region (effHp read)).events
            ++ [SbEvent.writeE region read.rid] := by
  rw [processRead_write_eq hpass hq]
  have hw := writerState_written st region (effHp read)
  split
  · exact ⟨rfl, rfl, rfl, by simp [writeRead, hw], rfl⟩
  · exact ⟨rfl, rfl, rfl, by simp [writeRead, hw], rfl⟩

theorem processRead_counts_eq {inc exc : List String} {maxReads : Nat}
    {st : SbState} {read : BamRead} {region : String}
    (hpass : passRegion inc exc read = some region)
    (hq : ¬(effHp read ≠ "" ∧
      maxReads ≤ ((quotaInit (effHp read) st.counts).lookup (effHp read)).getD 0)) :
    (processRead inc exc maxReads st read).counts
      = if effHp read ≠ "" then
          bumpAssoc (effHp read) (quotaInit (effHp read) st.counts)
        else quotaInit (effHp read) st.counts := by
  rw [processRead_write_eq hpass hq]
  have hc : (writeRead (writerState st region (effHp read)) region read).counts
      = quotaInit (effHp read) st.counts := by
    show (writerState st region (effHp read)).counts = _
    exact writerState_counts st region (effHp read)
  split
  · rw [hc]
  · exact hc

/-- PartitionOutput retention plus cache-results containment: once a path is
recorded in `result_abs_paths` it stays; every cached writer has a recorded
path; every eviction concerns a recorded path. -/
def EvictInv (st : SbState) : Prop :=
  (∀ r, SbEvent.evictClose r ∈ st.events → r ∈ st.results) ∧
  (∀ r, r ∈ st.cache → r ∈ st.results)

theorem getLast?_mem {l : List String} {e : String} (h : l.getLast? = some e) :
    e ∈ l := by
  rcases List.getLast?_eq_some_iff.mp h with ⟨ys, rfl⟩
  exact List.mem_append_right _ (List.mem_singleton.mpr rfl)

theorem evictInv_openRegion {st : SbState} {region : String}
    (hE : EvictInv st) : EvictInv (openRegion st region) := by
  constructor
  · intro r hr
    rcases mem_openRegion_events hr with h | h | ⟨e, hgl, he⟩
    · exact mem_openRegion_results_iff.mpr (Or.inl (hE.1 r h))
    · cases h
    · obtain rfl : r = e := by
        injection he
      exact mem_openRegion_results_iff.mpr
        (Or.inl (hE.2 r (getLast?_mem hgl)))
  · intro r hr
    rcases mem_openRegion_cache hr with h | h
    · exact mem_openRegion_results_iff.mpr (Or.inr h)
    · exact mem_openRegion_results_iff.mpr (Or.inl (hE.2 r h))

theorem evictInv_quotaState {st : SbState} (hp : String) (hE : EvictInv st) :
    EvictInv (quotaState st hp) := hE

theorem evictInv_writerState {st : SbState} {region hp : String}
    (hE : EvictInv st) :
    EvictInv (writerState st region hp) ∧
      region ∈ (writerState st region hp).results := by
  unfold writerState
  split
  · rename_i hmem
    exact ⟨hE, hE.2 region hmem⟩
  · refine ⟨@evictInv_openRegion (quotaState st hp) region hE, ?_⟩
    exact mem_openRegion_results_iff.mpr (Or.inr rfl)

theorem evictInv_processRead (inc exc : List String) (maxReads : Nat)
    (st : SbState) (read : BamRead) (hE : EvictInv st) :
    EvictInv (processRead inc exc maxReads st read) := by
  cases hpass : passRegion inc exc read with
  | none => rw [processRead_skip hpass]; exact hE
  | some region =>
    by_cases hq : effHp read ≠ "" ∧
        maxReads ≤ ((quotaInit (effHp read) st.counts).lookup (effHp read)).getD 0
    · rw [processRead_hit hpass hq]
      exact hE
    · obtain ⟨hcache, hfiles, hres, hwr, hevs⟩ := processRead_write_proj hpass hq
      obtain ⟨hws, hwreg⟩ := @evictInv_writerState st region (effHp read) hE
      constructor
      · intro r hr
        rw [hevs] at hr
        rw [hres]
        rcases List.mem_append.mp hr with hr | hr
        · exact hws.1 r hr
        · simp at hr
      · intro r hr
        rw [hcache] at hr
        rw [hres]
        rcases mem_lruTouch_iff.mp hr with hr | hr
        · exact hr ▸ hwreg
        · exact hws.2 r hr

/-- Read ids written for region `r`, as a function of the written-read log. -/
def retainedIds (written : List WriteRec) (r : String) : List Nat :=
  (written.filter (fun w => w.region == r)).map WriteRec.rid

theorem retainedFor_eq (st : SbState) (r : String) :
    retainedFor st r = retainedIds st.written r := rfl

theorem retainedIds_concat (written : List WriteRec) (rec : WriteRec)
    (r : String) :
    retainedIds (written ++ [rec]) r
      = retainedIds written r ++ (if rec.region = r then [rec.rid] else []) := by
  unfold retainedIds
  rw [List.filter_append, List.map_append]
  congr 1
  by_cases h : rec.region = r
  · simp [List.filter, h]
  · simp [List.filter, beq_eq_false_iff_ne.mpr h]
    exact h

theorem retainedIds_nil {written : List WriteRec} {r : String}
    (h : ∀ w ∈ written, w.region ≠ r) : retainedIds written r = [] := by
  unfold retainedIds
  rw [List.filter_eq_nil_iff.mpr ?_]
  · rfl
  · intro w hw
    simpa using h w hw

/-- Invariant of the streaming pass in the absence of evictions (distinct
filter-passing regions bounded by the cache capacity): the cache never
overflows, the cached writers are exactly the recorded output paths, and
every output path's on-disk content is exactly the reads retained for that
region so far. -/
def NoEvictInv (D : Finset String) (st : SbState) : Prop :=
  st.cache.Nodup ∧
  (∀ r ∈ st.cache, r ∈ D) ∧
  (∀ r, r ∈ st.cache ↔ r ∈ st.results) ∧
  (∀ r, st.files.lookup r
      = if r ∈ st.results then some (retainedFor st r) else none) ∧
  (∀ w ∈ st.written, w.region ∈ st.results)

theorem nodup_length_le_card {l : List String} {D : Finset String}
    (hn : l.Nodup) (hs : ∀ x ∈ l, x ∈ D) : l.length ≤ D.card := by
  calc l.length = l.toFinset.card := (List.toFinset_card_of_nodup hn).symm
  _ ≤ D.card := Finset.card_le_card (fun x hx => hs x (List.mem_toFinset.mp hx))

theorem noEvictInv_processRead {D : Finset String} (hD : D.card ≤ 5)
    (inc exc : List String) (maxReads : Nat) (st : SbState) (read : BamRead)
    (hmemD : ∀ region, passRegion inc exc read = some region → region ∈ D)
    (hI : NoEvictInv D st) : NoEvictInv D (processRead inc exc maxReads st read) := by
  obtain ⟨hnd, hsub, hiff, hfl, hwr⟩ := hI
  cases hpass : passRegion inc exc read with
  | none => rw [processRead_skip hpass]; exact ⟨hnd, hsub, hiff, hfl, hwr⟩
  | some region =>
    by_cases hq : effHp read ≠ "" ∧
        maxReads ≤ ((quotaInit (effHp read) st.counts).lookup (effHp read)).getD 0
    · rw [processRead_hit hpass hq]
      exact ⟨hnd, hsub, hiff, hfl, hwr⟩
    · obtain ⟨hcache, hfiles, hres, hwrit, hevs⟩ := processRead_write_proj hpass hq
      by_cases hc : region ∈ st.cache
      · -- the writer was cached: writerState is just quotaState
        have hW : writerState st region (effHp read) = quotaState st (effHp read) := by
          unfold writerState
          rw [if_pos hc]
        rw [hW] at hcache hfiles hres
        have hregres : region ∈ st.results := (hiff region).mp hc
        refine ⟨?_, ?_, ?_, ?_, ?_⟩
        · rw [hcache, quotaState_cache]
          unfold lruTouch
          exact List.nodup_cons.mpr
            ⟨fun hmem => (((hnd.mem_erase_iff).mp hmem).1 rfl), hnd.erase region⟩
        · intro r hr
          rw [hcache, quotaState_cache] at hr
          rcases mem_lruTouch_iff.mp hr with rfl | hr
          · exact hsub r hc
          · exact hsub r hr
        · intro r
          rw [hcache, hres, quotaState_cache, quotaState_results]
          rw [mem_lruTouch_iff]
          constructor
          · rintro (rfl | hr)
            · exact hregres
            · exact (hiff r).mp hr
          · intro hr
            exact Or.inr ((hiff r).mpr hr)
        · intro r
          rw [hfiles, hres, quotaState_files, quotaState_results]
          by_cases hrr : r = region
          · subst hrr
            have hlook : st.files.lookup r = some (retainedFor st r) := by
              rw [hfl r, if_pos hregres]
            rw [lookup_appendAssoc_self read.rid hlook, if_pos hregres]
            rw [show retainedFor (processRead inc exc maxReads st read) r
              = retainedIds (processRead inc exc maxReads st read).written r from rfl]
            rw [hwrit, retainedIds_concat]
            simp [retainedFor_eq]
          · rw [lookup_appendAssoc_ne read.rid hrr, hfl r]
            by_cases hrres : r ∈ st.results
            · rw [if_pos hrres, if_pos hrres]
              rw [show retainedFor (processRead inc exc maxReads st read) r
                = retainedIds (processRead inc exc maxReads st read).written r from rfl]
              rw [hwrit, retainedIds_concat]
              simp [retainedFor_eq, Ne.symm hrr]
            · rw [if_neg hrres, if_neg hrres]
        · intro w hw
          rw [hwrit] at hw
          rw [hres, quotaState_results]
          rcases List.mem_append.mp hw with hw | hw
          · exact hwr w hw
          · rcases List.mem_singleton.mp hw with rfl
            exact hregres
      · -- a fresh writer: no eviction can occur under the capacity bound
        have hregD : region ∈ D := hmemD region hpass
        have hnd' : (region :: st.cache).Nodup := List.nodup_cons.mpr ⟨hc, hnd⟩
        have hsub' : ∀ x ∈ region :: st.cache, x ∈ D := by
          intro x hx
          rcases List.mem_cons.mp hx with rfl | hx
          · exact hregD
          · exact hsub x hx
        have hlen : st.cache.length < 5 := by
          have h1 : (region :: st.cache).length ≤ D.card :=
            nodup_length_le_card hnd' hsub'
          have h2 : st.cache.length + 1 ≤ 5 :=
            le_trans (by simpa using h1) hD
          omega
        have hregres : region ∉ st.results := fun h => hc ((hiff region).mpr h)
        have hW : writerState st region (effHp read)
            = openRegion (quotaState st (effHp read)) region := by
          unfold writerState
          rw [if_neg hc]
        have hWc : (writerState st region (effHp read)).cache = region :: st.cache := by
          rw [hW, openRegion_cache, quotaState_cache]
          rw [if_neg (Nat.not_le.mpr hlen)]
        have hWf : (writerState st region (effHp read)).files
            = setAssoc region [] st.files := by
          rw [hW, openRegion_files, quotaState_files]
        have hWr : (writerState st region (effHp read)).results
            = st.results ++ [region] := by
          rw [hW, openRegion_results, quotaState_results]
          rw [if_neg hregres]
        refine ⟨?_, ?_, ?_, ?_, ?_⟩
        · rw [hcache, hWc]
          unfold lruTouch
          rw [List.erase_cons_head]
          exact hnd'
        · intro r hr
          rw [hcache, hWc] at hr
          rcases mem_lruTouch_iff.mp hr with rfl | hr
          · exact hregD
          · exact hsub' r hr
        · intro r
          rw [hcache, hWc, hres, hWr, mem_lruTouch_iff]
          constructor
          · rintro (rfl | hr)
            · exact List.mem_append_right _ (List.mem_singleton.mpr rfl)
            · rcases List.mem_cons.mp hr with rfl | hr
              · exact List.mem_append_right _ (List.mem_singleton.mpr rfl)
              · exact List.mem_append_left _ ((hiff r).mp hr)
          · intro hr
            rcases List.mem_append.mp hr with hr | hr
            · exact Or.inr (List.mem_cons_of_mem _ ((hiff r).mpr hr))
            · rcases List.mem_singleton.mp hr with rfl
              exact Or.inl rfl
        · intro r
          rw [hfiles, hres, hWf, hWr]
          by_cases hrr : r = region
          · subst hrr
            have hset : (setAssoc r ([] : List Nat) st.files).lookup r
                = some [] := lookup_setAssoc_self r [] st.files
            rw [lookup_appendAssoc_self read.rid hset]
            rw [if_pos (List.mem_append_right _ (List.mem_singleton.mpr rfl))]
            rw [show retainedFor (processRead inc exc maxReads st read) r
              = retainedIds (processRead inc exc maxReads st read).written r from rfl]
            rw [hwrit, retainedIds_concat]
            have hnil : retainedIds st.written r = [] :=
              retainedIds_nil (fun w hw heq => hregres (heq ▸ hwr w hw))
            simp [hnil]
          · rw [lookup_appendAssoc_ne read.rid hrr,
              lookup_setAssoc_ne ([] : List Nat) hrr, hfl r]
            have hmemiff : r ∈ st.results ++ [region] ↔ r ∈ st.results := by
              constructor
              · intro h
                rcases List.mem_append.mp h with h | h
                · exact h
                · exact absurd (List.mem_singleton.mp h) hrr
              · exact fun h => List.mem_append_left _ h
            by_cases hrres : r ∈ st.results
            · rw [if_pos hrres, if_pos (hmemiff.mpr hrres)]
              rw [show retainedFor (processRead inc exc maxReads st read) r
                = retainedIds (processRead inc exc maxReads st read).written r from rfl]
              rw [hwrit, retainedIds_concat]
              simp [retainedFor_eq, Ne.symm hrr]
            · rw [if_neg hrres, if_neg (fun h => hrres (hmemiff.mp h))]
        · intro w hw
          rw [hwrit] at hw
          rw [hres, hWr]
          rcases List.mem_append.mp hw with hw | hw
          · exact List.mem_append_left _ (hwr w hw)
          · rcases List.mem_singleton.mp hw with rfl
            exact List.mem_append_right _ (List.mem_singleton.mpr rfl)

theorem noEvictInv_init (D : Finset String) : NoEvictInv D initSbState := by
  refine ⟨List.nodup_nil, ?_, ?_, ?_, ?_⟩
  · intro r hr; cases hr
  · intro r
    constructor
    · intro hr; cases hr
    · intro hr; cases hr
  · intro r
    rw [if_neg (by intro h; cases h)]
    rfl
  · intro w hw; cases hw

theorem sbStream_noEvictInv (inc exc : List String) (maxReads : Nat)
    (reads : List BamRead)
    (hD : ((reads.filterMap (passRegion inc exc)).toFinset.card ≤ 5)) :
    NoEvictInv (reads.filterMap (passRegion inc exc)).toFinset
      (sbStream inc exc maxReads reads) := by
  unfold sbStream
  apply foldl_preserves_mem
  · intro s a ha hP
    refine noEvictInv_processRead hD inc exc maxReads s a ?_ hP
    intro region hreg
    exact List.mem_toFinset.mpr (List.mem_filterMap.mpr ⟨a, ha, hreg⟩)
  · exact noEvictInv_init _

theorem split_bam_files (inc exc : List String) (maxReads : Nat)
    (reads : List BamRead) :
    (split_bam inc exc maxReads reads).files
      = (sbStream inc exc maxReads reads).files := rfl

theorem split_bam_results_eq (inc exc : List String) (maxReads : Nat)
    (reads : List BamRead) :
    (split_bam inc exc maxReads reads).results
      = (sbStream inc exc maxReads reads).results := rfl

theorem split_bam_written (inc exc : List String) (maxReads : Nat)
    (reads : List BamRead) :
    (split_bam inc exc maxReads reads).written
      = (sbStream inc exc maxReads reads).written := rfl

theorem split_bam_events (inc exc : List String) (maxReads : Nat)
    (reads : List BamRead) :
    (split_bam inc exc maxReads reads).events
      = (sbStream inc exc maxReads reads).events
        ++ (sbStream inc exc maxReads reads).cache.map SbEvent.closeW
        ++ (sbStream inc exc maxReads reads).results.map SbEvent.indexE := rfl

theorem sbStream_evictInv (inc exc : List String) (maxReads : Nat)
    (reads : List BamRead) : EvictInv (sbStream inc exc maxReads reads) := by
  unfold sbStream
  apply foldl_preserves_mem _ EvictInv
  · intro s a _ hP
    exact evictInv_processRead inc exc maxReads s a hP
  · constructor
    · intro r hr; cases hr
    · intro r hr; cases hr

theorem writeE_not_mem_closes (r : String) (rid : Nat) (l : List String) :
    SbEvent.writeE r rid ∉ l.map SbEvent.closeW := by
  intro h
  rcases List.mem_map.mp h with ⟨x, _, hx⟩
  cases hx

theorem writeE_not_mem_indexes (r : String) (rid : Nat) (l : List String) :
    SbEvent.writeE r rid ∉ l.map SbEvent.indexE := by
  intro h
  rcases List.mem_map.mp h with ⟨x, _, hx⟩
  cases hx

theorem evictClose_not_mem_closes (r : String) (l : List String) :
    SbEvent.evictClose r ∉ l.map SbEvent.closeW := by
  intro h
  rcases List.mem_map.mp h with ⟨x, _, hx⟩
  cases hx

theorem evictClose_not_mem_indexes (r : String) (l : List String) :
    SbEvent.evictClose r ∉ l.map SbEvent.indexE := by
  intro h
  rcases List.mem_map.mp h with ⟨x, _, hx⟩
  cases hx

/-- C1 as amended: (i) an evicted writer's PartitionOutput entry is always
retained — the eviction discards the handle (the CPython finalizer flushes
and closes it), but `result_abs_paths` keeps the region; (ii) provided the
number of distinct filter-passing regions does not exceed the cache
capacity 5 — so that no region is revisited after an eviction — every read
that passes the region and quota filters is present in its region's final
output data file.  (The counterexample shows (ii) fails without the
capacity bound: a region revisited after eviction is reopened in truncate
mode and its earlier reads are silently lost.) -/
theorem c1_amended (inc exc : List String) (maxReads : Nat)
    (reads : List BamRead) :
    (∀ r, SbEvent.evictClose r ∈ (split_bam inc exc maxReads reads).events →
        r ∈ (split_bam inc exc maxReads reads).results) ∧
    ((reads.filterMap (passRegion inc exc)).toFinset.card ≤ 5 →
      ∀ w ∈ (split_bam inc exc maxReads reads).written,
        (split_bam inc exc maxReads reads).files.lookup w.region
            = some (retainedFor (split_bam inc exc maxReads reads) w.region) ∧
        w.rid ∈ retainedFor (split_bam inc exc maxReads reads) w.region) := by
  constructor
  · intro r hr
    rw [split_bam_events] at hr
    rw [split_bam_results_eq]
    rcases List.mem_append.mp hr with hr | hr
    · rcases List.mem_append.mp hr with hr | hr
      · exact (sbStream_evictInv inc exc maxReads reads).1 r hr
      · exact absurd hr (evictClose_not_mem_closes r _)
    · exact absurd hr (evictClose_not_mem_indexes r _)
  · intro hD w hw
    obtain ⟨hnd, hsub, hiff, hfl, hwreg⟩ :=
      sbStream_noEvictInv inc exc maxReads reads hD
    rw [split_bam_written] at hw
    have hres : w.region ∈ (sbStream inc exc maxReads reads).results :=
      hwreg w hw
    constructor
    · rw [split_bam_files,
        show retainedFor (split_bam inc exc maxReads reads) w.region
          = retainedFor (sbStream inc exc maxReads reads) w.region from rfl]
      rw [hfl w.region, if_pos hres]
    · rw [show retainedFor (split_bam inc exc maxReads reads) w.region
        = retainedFor (sbStream inc exc maxReads reads) w.region from rfl]
      unfold retainedFor
      exact List.mem_map_of_mem WriteRec.rid
        (List.mem_filter_of_mem hw (by simp))

/-- Witness for C1 as amended: a single-region run keeps its only read. -/
theorem c1_amended_witness :
    (split_bam [] [] 5 [⟨some "g1", some "h", 0⟩]).files.lookup
        (⟨"g1", "h", 0⟩ : WriteRec).region
      = some (retainedFor (split_bam [] [] 5 [⟨some "g1", some "h", 0⟩])
          (⟨"g1", "h", 0⟩ : WriteRec).region) ∧
    (⟨"g1", "h", 0⟩ : WriteRec).rid
      ∈ retainedFor (split_bam [] [] 5 [⟨some "g1", some "h", 0⟩])
          (⟨"g1", "h", 0⟩ : WriteRec).region :=
  (c1_amended [] [] 5 [⟨some "g1", some "h", 0⟩]).2 (by decide)
    ⟨"g1", "h", 0⟩ (by decide)

/-- Region an event concerns. -/
def evRegion : SbEvent → String
  | .openW r => r
  | .writeE r _ => r
  | .evictClose r => r
  | .closeW r => r
  | .indexE r => r

/-- A close-style tail for region `r`: somewhere in the trace its handle is
finalized by an eviction, and no write to `r` occurs at or after that
point. -/
def ClosedTail (r : String) (events : List SbEvent) : Prop :=
  ∃ u v, events = u ++ SbEvent.evictClose r :: v ∧
    ∀ rid, SbEvent.writeE r rid ∉ SbEvent.evictClose r :: v

/-- Trace invariant of the streaming pass: every recorded output path has
been written at least once, and a region without a cached writer either was
never written or has no write after its last handle finalization. -/
def TraceInv (st : SbState) : Prop :=
  (∀ r ∈ st.results, ∃ rid, SbEvent.writeE r rid ∈ st.events) ∧
  (∀ r, r ∉ st.cache →
    (∀ rid, SbEvent.writeE r rid ∉ st.events) ∨ ClosedTail r st.events)

theorem closedTail_extend {r : String} {events suffix : List SbEvent}
    (h : ClosedTail r events)
    (hsuf : ∀ rid, SbEvent.writeE r rid ∉ suffix) :
    ClosedTail r (events ++ suffix) := by
  obtain ⟨u, v, hev, hnw⟩ := h
  refine ⟨u, v ++ suffix, ?_, ?_⟩
  · rw [hev, List.append_assoc, List.cons_append]
  · intro rid hmem
    rcases List.mem_cons.mp hmem with hmem | hmem
    · exact hnw rid (hmem ▸ List.mem_cons_self _ _)
    · rcases List.mem_append.mp hmem with hmem | hmem
      · exact hnw rid (List.mem_cons_of_mem _ hmem)
      · exact hsuf rid hmem

theorem traceInv_processRead (inc exc : List String) (maxReads : Nat)
    (st : SbState) (read : BamRead) (hT : TraceInv st) :
    TraceInv (processRead inc exc maxReads st read) := by
  obtain ⟨hres, htail⟩ := hT
  cases hpass : passRegion inc exc read with
  | none => rw [processRead_skip hpass]; exact ⟨hres, htail⟩
  | some region =>
    by_cases hq : effHp read ≠ "" ∧
        maxReads ≤ ((quotaInit (effHp read) st.counts).lookup (effHp read)).getD 0
    · rw [processRead_hit hpass hq]
      exact ⟨hres, htail⟩
    · obtain ⟨hcache, hfiles, hresq, hwrit, hevs⟩ := processRead_write_proj hpass hq
      by_cases hc : region ∈ st.cache
      · have hW : writerState st region (effHp read) = quotaState st (effHp read) := by
          unfold writerState
          rw [if_pos hc]
        rw [hW] at hcache hresq hevs
        constructor
        · intro r hr
          rw [hresq, quotaState_results] at hr
          rw [hevs, quotaState_events]
          obtain ⟨rid, hrid⟩ := hres r hr
          exact ⟨rid, List.mem_append_left _ hrid⟩
        · intro r hr
          rw [hcache, quotaState_cache] at hr
          rw [hevs, quotaState_events]
          have hrne : r ≠ region := fun h => hr (mem_lruTouch_iff.mpr (Or.inl h))
          have hrc : r ∉ st.cache := fun h => hr (mem_lruTouch_iff.mpr (Or.inr h))
          have hsuf : ∀ rid, SbEvent.writeE r rid ∉ [SbEvent.writeE region read.rid] := by
            intro rid hmem
            rcases List.mem_singleton.mp hmem with heq
            exact hrne (congrArg evRegion heq)
          rcases htail r hrc with h | h
          · left
            intro rid hmem
            rcases List.mem_append.mp hmem with hmem | hmem
            · exact h rid hmem
            · exact hsuf rid hmem
          · exact Or.inr (closedTail_extend h hsuf)
      · have hW : writerState st region (effHp read)
            = openRegion (quotaState st (effHp read)) region := by
          unfold writerState
          rw [if_neg hc]
        by_cases h5 : 5 ≤ st.cache.length
        · -- a writer is evicted
          have hne : st.cache ≠ [] := by
            intro hnil
            rw [hnil] at h5
            simp at h5
          obtain ⟨e, he⟩ : ∃ e, st.cache.getLast? = some e :=
            ⟨st.cache.getLast hne, List.getLast?_eq_getLast _ hne⟩
          obtain ⟨ys, hys⟩ := List.getLast?_eq_some_iff.mp he
          have hdrop : st.cache.dropLast = ys := by
            rw [hys]
            exact List.dropLast_concat
          have hWev : (writerState st region (effHp read)).events
              = st.events ++ [SbEvent.openW region] ++ [SbEvent.evictClose e] := by
            rw [hW, openRegion_events, quotaState_events, quotaState_cache]
            rw [if_pos h5, he]
            rfl
          have hWca : (writerState st region (effHp read)).cache
              = region :: st.cache.dropLast := by
            rw [hW, openRegion_cache, quotaState_cache, if_pos h5]
          have hWre : (writerState st region (effHp read)).results
              = if region ∈ st.results then st.results
                else st.results ++ [region] := by
            rw [hW, openRegion_results, quotaState_results]
          have hregne : region ≠ e := by
            intro heq
            apply hc
            rw [heq, hys]
            exact List.mem_append_right _ (List.mem_singleton.mpr rfl)
          constructor
          · intro r hr
            rw [hresq, hWre] at hr
            rw [hevs, hWev]
            by_cases hrreg : r = region
            · subst hrreg
              exact ⟨read.rid, List.mem_append_right _ (List.mem_singleton.mpr rfl)⟩
            · have hrmem : r ∈ st.results := by
                revert hr
                split
                · exact id
                · intro hr
                  rcases List.mem_append.mp hr with hr | hr
                  · exact hr
                  · exact absurd (List.mem_singleton.mp hr) hrreg
              obtain ⟨rid, hrid⟩ := hres r hrmem
              exact ⟨rid, List.mem_append_left _
                (List.mem_append_left _ (List.mem_append_left _ hrid))⟩
          · intro r hr
            rw [hcache, hWca] at hr
            rw [hevs, hWev]
            have hrne : r ≠ region := fun h => hr (mem_lruTouch_iff.mpr (Or.inl h))
            have hrdrop : r ∉ region :: st.cache.dropLast :=
              fun h => hr (mem_lruTouch_iff.mpr (Or.inr h))
            have hrys : r ∉ ys := by
              intro hmem
              exact hrdrop (List.mem_cons_of_mem _ (hdrop ▸ hmem))
            by_cases hre : r = e
            · subst hre
              right
              refine ⟨st.events ++ [SbEvent.openW region], [SbEvent.writeE region read.rid], ?_, ?_⟩
              · rw [List.append_assoc, List.append_assoc, List.append_assoc]
                rfl
              · intro rid hmem
                rcases List.mem_cons.mp hmem with hmem | hmem
                · injection hmem
                · rcases List.mem_singleton.mp hmem with heq
                  exact hrne (congrArg evRegion heq)
            · have hrc : r ∉ st.cache := by
                rw [hys]
                intro hmem
                rcases List.mem_append.mp hmem with hmem | hmem
                · exact hrys hmem
                · exact hre (List.mem_singleton.mp hmem)
              have hsuf : ∀ rid, SbEvent.writeE r rid ∉
                  [SbEvent.openW region] ++ [SbEvent.evictClose e]
                    ++ [SbEvent.writeE region read.rid] := by
                intro rid hmem
                rcases List.mem_append.mp hmem with hmem | hmem
                · rcases List.mem_append.mp hmem with hmem | hmem
                  · cases List.mem_singleton.mp hmem
                  · cases List.mem_singleton.mp hmem
                · rcases List.mem_singleton.mp hmem with heq
                  exact hrne (congrArg evRegion heq)
              rcases htail r hrc with h | h
              · left
                intro rid hmem
                rw [List.append_assoc, List.append_assoc] at hmem
                rcases List.mem_append.mp hmem with hmem | hmem
                · exact h rid hmem
                · exact hsuf rid (by
                    rw [List.append_assoc]
                    exact hmem)
              · rw [List.append_assoc, List.append_assoc]
                refine Or.inr (closedTail_extend h ?_)
                intro rid hmem
                exact hsuf rid (by
                  rw [List.append_assoc]
                  exact hmem)
        · -- no eviction: the cache has room
          have hWev : (writerState st region (effHp read)).events
              = st.events ++ [SbEvent.openW region] := by
            rw [hW, openRegion_events, quotaState_events, quotaState_cache]
            rw [if_neg h5]
            simp
          have hWca : (writerState st region (effHp read)).cache
              = region :: st.cache := by
            rw [hW, openRegion_cache, quotaState_cache, if_neg h5]
          have hWre : (writerState st region (effHp read)).results
              = if region ∈ st.results then st.results
                else st.results ++ [region] := by
            rw [hW, openRegion_results, quotaState_results]
          constructor
          · intro r hr
            rw [hresq, hWre] at hr
            rw [hevs, hWev]
            by_cases hrreg : r = region
            · subst hrreg
              exact ⟨read.rid, List.mem_append_right _ (List.mem_singleton.mpr rfl)⟩
            · have hrmem : r ∈ st.results := by
                revert hr
                split
                · exact id
                · intro hr
                  rcases List.mem_append.mp hr with hr | hr
                  · exact hr
                  · exact absurd (List.mem_singleton.mp hr) hrreg
              obtain ⟨rid, hrid⟩ := hres r hrmem
              exact ⟨rid, List.mem_append_left _ (List.mem_append_left _ hrid)⟩
          · intro r hr
            rw [hcache, hWca] at hr
            rw [hevs, hWev]
            have hrne : r ≠ region := fun h => hr (mem_lruTouch_iff.mpr (Or.inl h))
            have hrc : r ∉ st.cache := fun h =>
              hr (mem_lruTouch_iff.mpr (Or.inr (List.mem_cons_of_mem _ h)))
            have hsuf : ∀ rid, SbEvent.writeE r rid ∉
                [SbEvent.openW region] ++ [SbEvent.writeE region read.rid] := by
              intro rid hmem
              rcases List.mem_append.mp hmem with hmem | hmem
              · cases List.mem_singleton.mp hmem
              · rcases List.mem_singleton.mp hmem with heq
                exact hrne (congrArg evRegion heq)
            rcases htail r hrc with h | h
            · left
              intro rid hmem
              rw [List.append_assoc] at hmem
              rcases List.mem_append.mp hmem with hmem | hmem
              · exact h rid hmem
              · exact hsuf rid hmem
            · rw [List.append_assoc]
              exact Or.inr (closedTail_extend h (hsuf))

theorem sbStream_traceInv (inc exc : List String) (maxReads : Nat)
    (reads : List BamRead) : TraceInv (sbStream inc exc maxReads reads) := by
  unfold sbStream
  apply foldl_preserves_mem _ TraceInv
  · intro s a _ hP
    exact traceInv_processRead inc exc maxReads s a hP
  · constructor
    · intro r hr; cases hr
    · intro r _
      left
      intro rid hmem
      cases hmem

/-- C2 as amended: (i) unconditionally, for every region that produced
output, the positional index is built only after that region's writer has
been closed — there is a close (explicit `finally` close, or finalization at
eviction) after the last write to the region and before its index event;
(ii) provided the number of distinct filter-passing regions does not exceed
the cache capacity 5, the data file the index is built from holds exactly
the reads retained for that region during the write pass, so re-reading the
output with its index yields the retained read set and count.  (The
counterexample shows (ii) fails once a region is revisited after an
eviction.) -/
theorem c2_amended (inc exc : List String) (maxReads : Nat)
    (reads : List BamRead) :
    (∀ r, r ∈ (split_bam inc exc maxReads reads).results →
      ∃ u c v, (split_bam inc exc maxReads reads).events = u ++ c :: v ∧
        (c = SbEvent.closeW r ∨ c = SbEvent.evictClose r) ∧
        SbEvent.indexE r ∈ v ∧
        (∀ rid, SbEvent.writeE r rid ∉ c :: v)) ∧
    ((reads.filterMap (passRegion inc exc)).toFinset.card ≤ 5 →
      ∀ r, r ∈ (split_bam inc exc maxReads reads).results →
        (split_bam inc exc maxReads reads).files.lookup r
          = some (retainedFor (split_bam inc exc maxReads reads) r)) := by
  constructor
  · intro r hr
    rw [split_bam_results_eq] at hr
    obtain ⟨hres1, htail⟩ := sbStream_traceInv inc exc maxReads reads
    by_cases hc : r ∈ (sbStream inc exc maxReads reads).cache
    · obtain ⟨a, b, hab⟩ := List.append_of_mem hc
      refine ⟨(sbStream inc exc maxReads reads).events ++ a.map SbEvent.closeW,
        SbEvent.closeW r,
        b.map SbEvent.closeW
          ++ (sbStream inc exc maxReads reads).results.map SbEvent.indexE,
        ?_, Or.inl rfl, ?_, ?_⟩
      · rw [split_bam_events, hab, List.map_append, List.map_cons]
        simp
      · exact List.mem_append_right _ (List.mem_map_of_mem _ hr)
      · intro rid hmem
        rcases List.mem_cons.mp hmem with hmem | hmem
        · cases hmem
        · rcases List.mem_append.mp hmem with hmem | hmem
          · exact writeE_not_mem_closes r rid _ hmem
          · exact writeE_not_mem_indexes r rid _ hmem
    · rcases htail r hc with h | h
      · obtain ⟨rid, hrid⟩ := hres1 r hr
        exact absurd hrid (h rid)
      · obtain ⟨u, v, hev, hnw⟩ := h
        refine ⟨u, SbEvent.evictClose r,
          v ++ (sbStream inc exc maxReads reads).cache.map SbEvent.closeW
            ++ (sbStream inc exc maxReads reads).results.map SbEvent.indexE,
          ?_, Or.inr rfl, ?_, ?_⟩
        · rw [split_bam_events, hev]
          simp
        · exact List.mem_append_right _ (List.mem_map_of_mem _ hr)
        · intro rid hmem
          rcases List.mem_cons.mp hmem with hmem | hmem
          · cases hmem
          · rcases List.mem_append.mp hmem with hmem | hmem
            · rcases List.mem_append.mp hmem with hmem | hmem
              · exact hnw rid (List.mem_cons_of_mem _ hmem)
              · exact writeE_not_mem_closes r rid _ hmem
            · exact writeE_not_mem_indexes r rid _ hmem
  · intro hD r hr
    obtain ⟨hnd, hsub, hiff, hfl, hwreg⟩ :=
      sbStream_noEvictInv inc exc maxReads reads hD
    rw [split_bam_results_eq] at hr
    rw [split_bam_files,
      show retainedFor (split_bam inc exc maxReads reads) r
        = retainedFor (sbStream inc exc maxReads reads) r from rfl]
    rw [hfl r, if_pos hr]

/-- Witness for C2 as amended: the single-region run has a close before its
index and its file holds exactly the retained reads. -/
theorem c2_amended_witness :
    (∃ u c v, (split_bam [] [] 5 [⟨some "g1", some "h", 0⟩]).events
          = u ++ c :: v ∧
        (c = SbEvent.closeW "g1" ∨ c = SbEvent.evictClose "g1") ∧
        SbEvent.indexE "g1" ∈ v ∧
        (∀ rid, SbEvent.writeE "g1" rid ∉ c :: v)) ∧
    (split_bam [] [] 5 [⟨some "g1", some "h", 0⟩]).files.lookup "g1"
        = some (retainedFor (split_bam [] [] 5 [⟨some "g1", some "h", 0⟩]) "g1") :=
  ⟨(c2_amended [] [] 5 [⟨some "g1", some "h", 0⟩]).1 "g1" (by decide),
   (c2_amended [] [] 5 [⟨some "g1", some "h", 0⟩]).2 (by decide) "g1" (by decide)⟩

theorem filter_ehp_concat (written : List WriteRec) (rec : WriteRec)
    (hap : String) :
    (written ++ [rec]).filter (fun w => w.ehp == hap)
      = written.filter (fun w => w.ehp == hap)
        ++ (if rec.ehp = hap then [rec] else []) := by
  rw [List.filter_append]
  congr 1
  by_cases h : rec.ehp = hap
  · simp [List.filter, h]
  · simp [List.filter, beq_eq_false_iff_ne.mpr h]
    exact h

/-- Invariant tying `haplotype_read_counts` to the written-read log: for
every non-empty haplotype value, the counter equals the number of reads
written so far with that haplotype — across all regions — and that number
never exceeds the configured maximum. -/
def QuotaInv (maxReads : Nat) (st : SbState) : Prop :=
  ∀ hap : String, hap ≠ "" →
    ((st.counts.lookup hap).getD 0
        = (st.written.filter (fun w => w.ehp == hap)).length) ∧
    (st.written.filter (fun w => w.ehp == hap)).length ≤ maxReads

theorem quotaInv_processRead (inc exc : List String) (maxReads : Nat)
    (st : SbState) (read : BamRead) (hQ : QuotaInv maxReads st) :
    QuotaInv maxReads (processRead inc exc maxReads st read) := by
  cases hpass : passRegion inc exc read with
  | none => rw [processRead_skip hpass]; exact hQ
  | some region =>
    by_cases hq : effHp read ≠ "" ∧
        maxReads ≤ ((quotaInit (effHp read) st.counts).lookup (effHp read)).getD 0
    · rw [processRead_hit hpass hq]
      intro hap hne
      have := hQ hap hne
      refine ⟨?_, this.2⟩
      rw [show (quotaState st (effHp read)).counts
        = quotaInit (effHp read) st.counts from rfl]
      rw [quotaInit_getD]
      exact this.1
    · obtain ⟨hcache, hfiles, hres, hwrit, hevs⟩ := processRead_write_proj hpass hq
      have hcounts := processRead_counts_eq hpass hq
      intro hap hne
      obtain ⟨hQ1, hQ2⟩ := hQ hap hne
      rw [hwrit, hcounts, filter_ehp_concat]
      by_cases hhp : effHp read = ""
      · rw [if_neg (by simpa using hhp)]
        have hrecne : (⟨region, effHp read, read.rid⟩ : WriteRec).ehp ≠ hap := by
          simpa [hhp] using Ne.symm hne
        rw [if_neg hrecne]
        rw [quotaInit_getD]
        simp [hQ1, hQ2]
      · rw [if_pos (by simpa using hhp)]
        by_cases hhap : hap = effHp read
        · subst hhap
          have hlt : ((quotaInit (effHp read) st.counts).lookup
              (effHp read)).getD 0 < maxReads := by
            rcases not_and_or.mp hq with hc | hc
            · exact absurd hhp (by simpa using hc)
            · exact Nat.lt_of_not_le hc
          obtain ⟨n, hnsome⟩ : ∃ n, (quotaInit (effHp read) st.counts).lookup
              (effHp read) = some n := by
            cases hl : (quotaInit (effHp read) st.counts).lookup (effHp read) with
            | none =>
              have hs := quotaInit_lookup_isSome (effHp read) hhp st.counts
              rw [hl] at hs
              cases hs
            | some n => exact ⟨n, rfl⟩
          have hn : n = (st.written.filter
              (fun w => w.ehp == effHp read)).length := by
            have hg := quotaInit_getD (effHp read) (effHp read) st.counts
            rw [hnsome] at hg
            simpa [hQ1] using hg
          rw [lookup_bumpAssoc_self hnsome]
          rw [if_pos rfl]
          constructor
          · simp [hn]
          · rw [List.length_append]
            have : n < maxReads := by
              rw [hnsome] at hlt
              simpa using hlt
            simp [← hn]
            omega
        · have hrecne : (⟨region, effHp read, read.rid⟩ : WriteRec).ehp ≠ hap := by
            simpa using (Ne.symm hhap)
          rw [if_neg hrecne]
          rw [lookup_bumpAssoc_ne hhap, quotaInit_getD]
          simp [hQ1, hQ2]

theorem sbStream_quotaInv (inc exc : List String) (maxReads : Nat)
    (reads : List BamRead) : QuotaInv maxReads (sbStream inc exc maxReads reads) := by
  unfold sbStream
  apply foldl_preserves_mem _ (QuotaInv maxReads)
  · intro s a _ hP
    exact quotaInv_processRead inc exc maxReads s a hP
  · intro hap _
    exact ⟨rfl, Nat.zero_le _⟩

/-- C3 as amended: the quota counter is keyed by haplotype value alone,
shared across all regions of the pass (a read's haplotype defaults to
"unknown" when the HP tag is absent).  Hence (i) for every non-empty
haplotype the number of retained reads across the whole pass — and a
fortiori (ii) for every (region, haplotype) pair — never exceeds the
configured maximum; and (iii) a read that passes the region filters is
retained exactly when its haplotype is the falsy empty string or the global
count of already-retained reads with its haplotype is below the maximum,
i.e. it is dropped for quota exactly when the global — not per-region —
count has reached the maximum. -/
theorem c3_amended (inc exc : List String) (maxReads : Nat)
    (reads : List BamRead) :
    (∀ hap, hap ≠ "" →
      ((split_bam inc exc maxReads reads).written.filter
          (fun w => w.ehp == hap)).length ≤ maxReads) ∧
    (∀ r hap, hap ≠ "" →
      ((split_bam inc exc maxReads reads).written.filter
          (fun w => w.region == r && w.ehp == hap)).length ≤ maxReads) ∧
    (∀ (pre : List BamRead) (read : BamRead) (region : String),
      passRegion inc exc read = some region →
      ((processRead inc exc maxReads (sbStream inc exc maxReads pre) read).written
          = (sbStream inc exc maxReads pre).written
            ++ [⟨region, effHp read, read.rid⟩]
        ↔ (effHp read = "" ∨
            ((sbStream inc exc maxReads pre).written.filter
                (fun w => w.ehp == effHp read)).length < maxReads))) := by
  refine ⟨?_, ?_, ?_⟩
  · intro hap hne
    rw [split_bam_written]
    exact (sbStream_quotaInv inc exc maxReads reads hap hne).2
  · intro r hap hne
    rw [split_bam_written]
    have hnest : ((sbStream inc exc maxReads reads).written.filter
          (fun w => w.region == r && w.ehp == hap))
        = (((sbStream inc exc maxReads reads).written.filter
            (fun w => w.ehp == hap)).filter (fun w => w.region == r)) := by
      rw [List.filter_filter]
    rw [hnest]
    exact le_trans (List.length_filter_le _ _)
      (sbStream_quotaInv inc exc maxReads reads hap hne).2
  · intro pre read region hpass
    by_cases hq : effHp read ≠ "" ∧
        maxReads ≤ ((quotaInit (effHp read)
          (sbStream inc exc maxReads pre).counts).lookup (effHp read)).getD 0
    · rw [processRead_hit hpass hq]
      obtain ⟨hhp, hle⟩ := hq
      have hcnt := (sbStream_quotaInv inc exc maxReads pre (effHp read) hhp).1
      rw [quotaInit_getD, hcnt] at hle
      constructor
      · intro heq
        have := congrArg List.length heq
        rw [show (quotaState (sbStream inc exc maxReads pre) (effHp read)).written
          = (sbStream inc exc maxReads pre).written from rfl] at this
        simp at this
      · rintro (h | h)
        · exact absurd h hhp
        · exact absurd h (Nat.not_lt.mpr hle)
    · obtain ⟨hcache, hfiles, hres, hwrit, hevs⟩ := processRead_write_proj hpass hq
      constructor
      · intro _
        rcases not_and_or.mp hq with hc | hc
        · exact Or.inl (by simpa using hc)
        · by_cases hhp : effHp read = ""
          · exact Or.inl hhp
          · right
            have hcnt := (sbStream_quotaInv inc exc maxReads pre (effHp read) hhp).1
            rw [quotaInit_getD, hcnt] at hc
            exact Nat.lt_of_not_le hc
      · intro _
        exact hwrit

/-- Witness for C3 as amended: in the two-region quota-1 run the global
count of haplotype "h" reads retained is at most 1. -/
theorem c3_amended_witness :
    ((split_bam [] [] 1 [⟨some "gA", some "h", 0⟩, ⟨some "gB", some "h", 1⟩]).written.filter
        (fun w => w.ehp == "h")).length ≤ 1 :=
  (c3_amended [] [] 1
    [⟨some "gA", some "h", 0⟩, ⟨some "gB", some "h", 1⟩]).1 "h" (by decide)

/-! Record Aggregator: `paraviewer.py` and `process_paraphase.py`.  The
pedigree, call-metadata and partition maps are explicit inputs; a raised
Python exception is an `Except.error`. -/

/-- `utils.PedigreeEntry`. -/
structure PedigreeEntry where
  FamilyID : String
  IndividualID : String
  PaternalID : String
  MaternalID : String
  Sex : String
  Phenotype : String
deriving DecidableEq, Repr

/-- `utils.GenomicInterval`. -/
structure GenomicInterval where
  Chrom : String
  Start : Int
  End : Int
deriving DecidableEq, Repr

/-- `utils.REGION_PADDING`. -/
def REGION_PADDING : Int := 1000

/-- `utils.genomic_interval_from_str`: parse `chrom:start-end` (digit-group
commas tolerated); any failure raises ValueError, modelled as `none` — every
caller in `process_paraphase.py` wraps the call in a try/except and skips
the region.  Python `int()` is modelled by `String.toInt?`. -/
def genomic_interval_from_str (s : String) : Option GenomicInterval :=
  match (s.trim).splitOn ":" with
  | [chrom_part, pos_part] =>
    match pos_part.splitOn "-" with
    | [start_str, end_str] =>
      match (start_str.replace "," "").toInt?,
          (end_str.replace "," "").toInt? with
      | some a, some b =>
        if a < 0 ∨ b < 0 then none else some ⟨chrom_part, a, b⟩
      | _, _ => none
    | _ => none
  | _ => none

/-- Per-region output paths stored in the partition map. -/
structure BamPaths where
  BAM : String
  BAI : String
deriving DecidableEq, Repr

/-- A decoded per-sample call-metadata JSON: region name to record. -/
abbrev Calls := List (String × RegionData)

/-- Python exceptions that the modelled code can raise and does not catch. -/
inductive PyErr where
  | typeError (msg : String)
  | keyError (key : String)
deriving DecidableEq, Repr

/-- Input classes of `utils.unpack_json` (lines 91-116): the file may be
absent, a `.gz` that is not actually gzipped, unparseable (a JSONDecodeError
— which an empty file also raises), or parsed data. -/
inductive JsonSource (α : Type) where
  | absent
  | badGzip
  | malformed
  | parsed (v : α)
deriving DecidableEq, Repr

/-- `utils.unpack_json`: every failure class logs a warning and returns
None; only parseable data comes back. -/
def unpack_json {α : Type} : JsonSource α → Option α
  | .parsed v => some v
  | _ => none

/-- `utils.IMAGES_PATH` instantiated for a sample. -/
def IMAGES_PATH (sample : String) : String := "data/" ++ sample ++ "/images"

/-- `utils.IGV_SESSIONS_PATH` instantiated for a sample. -/
def IGV_SESSIONS_PATH (sample : String) : String :=
  "data/" ++ sample ++ "/igv_sessions"

/-- `utils.BAMS_PATH` instantiated for a sample. -/
def BAMS_PATH (sample : String) : String := "data/" ++ sample ++ "/bams"

/-- A region-to-configuration map; each region's record carries the
`realign_region` coordinate string among other keys. -/
abbrev Config := List (String × List (String × String))

/-- `paraphase_config[region]["realign_region"]`: either dict access may
raise KeyError, but every use is inside the same try/except as the
coordinate parse, so both failures are modelled as `none`. -/
def configRealign (config : Config) (region : String) : Option String :=
  (config.lookup region).bind (fun m => m.lookup "realign_region")

/-- One canonical report row, `utils.RegionEntry`.  The alignment fields
hold one path for an individual row (`α = String`) and three paths in
paternal, maternal, proband order for a trio row (`α = List String`). -/
structure RegionEntry (α : Type) where
  Chrom : String
  Start : Int
  End : Int
  Region : String
  Sample : String
  BAM : α
  BAI : α
  CopyNumber : JVal
  SpecialInfo : String
  Image : String
  IGVSession : String
  FamilyID : String
  PaternalID : String
  MaternalID : String
  Sex : String
  Phenotype : String
deriving DecidableEq, Repr

/-- `process_paraphase.make_table_entries` (lines 174-245): iterating the
decoded call-metadata builds one row per region present in the partition
map with parseable configuration.  When `unpack_json` returned None the
`for region in paraphase_json_calls` line raises TypeError — there is no
None check. -/
def make_table_entries (pres : ParaphaseResults)
    (pedigree_entry : Option PedigreeEntry)
    (split_bams : List (String × BamPaths))
    (paraphase_config : Config)
    (callsOpt : Option Calls) : Except PyErr (List (RegionEntry String)) :=
  match callsOpt with
  | none => .error (.typeError "argument of type NoneType is not iterable")
  | some calls =>
    .ok (calls.foldl (fun acc p =>
      match split_bams.lookup p.1 with
      | none => acc
      | some paths =>
        match (configRealign paraphase_config p.1).bind
            genomic_interval_from_str with
        | none => acc
        | some gi =>
          let cnsi := get_special_info p.1 p.2 pres
          acc ++ [{ Chrom := gi.Chrom,
                    Start := max 0 (gi.Start - REGION_PADDING),
                    End := max 0 (gi.End + REGION_PADDING),
                    Region := p.1,
                    Sample := pres.Sample,
                    BAM := paths.BAM,
                    BAI := paths.BAI,
                    CopyNumber := cnsi.1,
                    SpecialInfo := cnsi.2,
                    Image := IMAGES_PATH pres.Sample ++ "/"
                      ++ pres.Sample ++ "_" ++ p.1 ++ ".png",
                    IGVSession := IGV_SESSIONS_PATH pres.Sample ++ "/"
                      ++ p.1 ++ "_igv.xml",
                    FamilyID := (pedigree_entry.map PedigreeEntry.FamilyID).getD "",
                    PaternalID := (pedigree_entry.map PedigreeEntry.PaternalID).getD "",
                    MaternalID := (pedigree_entry.map PedigreeEntry.MaternalID).getD "",
                    Sex := (pedigree_entry.map PedigreeEntry.Sex).getD "",
                    Phenotype := (pedigree_entry.map PedigreeEntry.Phenotype).getD "" }])
      [])

/-- `paraviewer.get_trio_samples` (lines 29-45): select the pedigree
entries whose individual and both named parents all appear among the
paraphase results (keyed list), under the key `sample + "-trio"`. -/
def get_trio_samples (pedigree_dict : List (String × PedigreeEntry))
    (all_paraphase_results : List String) : List (String × PedigreeEntry) :=
  pedigree_dict.filterMap (fun p =>
    if p.1 ∈ all_paraphase_results ∧
        p.2.PaternalID ∈ all_paraphase_results ∧
        p.2.MaternalID ∈ all_paraphase_results
    then some (p.1 ++ "-trio", p.2) else none)

/-- Output paths of `utils.copy_trio_bams` in its loop order: paternal,
maternal, proband.  The filesystem copies themselves are not modelled. -/
def copy_trio_bams_paths (trio : PedigreeEntry) (region : String) : List String :=
  [BAMS_PATH (trio.IndividualID ++ "-trio") ++ "/"
     ++ trio.PaternalID ++ "_" ++ region ++ ".bam",
   BAMS_PATH (trio.IndividualID ++ "-trio") ++ "/"
     ++ trio.MaternalID ++ "_" ++ region ++ ".bam",
   BAMS_PATH (trio.IndividualID ++ "-trio") ++ "/"
     ++ trio.IndividualID ++ "_" ++ region ++ ".bam"]

/-- Python `d[region]` on an unpack_json result: `None[region]` raises
TypeError; a missing key raises KeyError (`process_paraphase.py` lines
109-110). -/
def fetchRegion (oc : Option Calls) (region : String) : Except PyErr RegionData :=
  match oc with
  | none => .error (.typeError "NoneType object is not subscriptable")
  | some m =>
    match m.lookup region with
    | none => .error (.keyError region)
    | some d => .ok d

/-- Region loop of `process_paraphase.make_trio_table_entries` (lines
107-170): for each region of the proband's call-metadata, the paternal and
maternal call-metadata are indexed directly (lines 109-110) before the
split-bam membership checks (lines 112-117); then the trio bams are copied
and, when the configuration parses, one trio row is appended. -/
def trioRegions (trio : PedigreeEntry)
    (paternal_calls maternal_calls : Option Calls)
    (all_split_bams : List (String × List (String × BamPaths)))
    (paraphase_config : Config) (pres : ParaphaseResults) :
    List (String × RegionData) → Except PyErr (List (RegionEntry (List String)))
  | [] => .ok []
  | (region, region_data) :: rest =>
    match fetchRegion paternal_calls region with
    | .error e => .error e
    | .ok _ =>
      match fetchRegion maternal_calls region with
      | .error e => .error e
      | .ok _ =>
        let indMap := (all_split_bams.lookup trio.IndividualID).getD []
        let matMap := (all_split_bams.lookup trio.MaternalID).getD []
        let patMap := (all_split_bams.lookup trio.PaternalID).getD []
        if (indMap.lookup region).isNone ∨ (matMap.lookup region).isNone ∨
            (patMap.lookup region).isNone then
          trioRegions trio paternal_calls maternal_calls all_split_bams
            paraphase_config pres rest
        else
          let bam_paths := copy_trio_bams_paths trio region
          match (configRealign paraphase_config region).bind
              genomic_interval_from_str with
          | none =>
            trioRegions trio paternal_calls maternal_calls all_split_bams
              paraphase_config pres rest
          | some gi =>
            let cnsi := get_special_info region region_data pres
            match trioRegions trio paternal_calls maternal_calls all_split_bams
                paraphase_config pres rest with
            | .error e => .error e
            | .ok tail =>
              .ok ({ Chrom := gi.Chrom,
                     Start := max 0 (gi.Start - REGION_PADDING),
                     End := max 0 (gi.End + REGION_PADDING),
                     Region := region,
                     Sample := trio.IndividualID ++ "-trio",
                     BAM := bam_paths,
                     BAI := bam_paths.map (fun x => x ++ ".bai"),
                     CopyNumber := cnsi.1,
                     SpecialInfo := cnsi.2,
                     Image := IMAGES_PATH (trio.IndividualID ++ "-trio") ++ "/"
                       ++ (trio.IndividualID ++ "-trio") ++ "_" ++ region ++ ".png",
                     IGVSession := IGV_SESSIONS_PATH (trio.IndividualID ++ "-trio")
                       ++ "/" ++ region ++ "_igv.xml",
                     FamilyID := trio.FamilyID,
                     PaternalID := trio.PaternalID,
                     MaternalID := trio.MaternalID,
                     Sex := trio.Sex,
                     Phenotype := trio.Phenotype } :: tail)

/-- `process_paraphase.make_trio_table_entries` (lines 80-171): the guard of
lines 96-101 returns an empty row list, silently, when any of the three
family members lacks a partition map; otherwise the three call-metadata
JSONs are unpacked (iterating a None proband JSON raises TypeError) and the
region loop runs. -/
def make_trio_table_entries (trio : PedigreeEntry)
    (proband_calls paternal_calls maternal_calls : Option Calls)
    (all_split_bams : List (String × List (String × BamPaths)))
    (paraphase_config : Config) (pres : ParaphaseResults) :
    Except PyErr (List (RegionEntry (List String))) :=
  if trio.IndividualID ∉ all_split_bams.map Prod.fst ∨
      trio.PaternalID ∉ all_split_bams.map Prod.fst ∨
      trio.MaternalID ∉ all_split_bams.map Prod.fst then
    .ok []
  else
    match proband_calls with
    | none => .error (.typeError "argument of type NoneType is not iterable")
    | some pcalls =>
      trioRegions trio paternal_calls maternal_calls all_split_bams
        paraphase_config pres pcalls

theorem lookup_none_iff_not_mem_keys {α : Type} (l : List (String × α))
    (k : String) : l.lookup k = none ↔ k ∉ l.map Prod.fst := by
  rw [List.lookup_eq_none_iff]
  constructor
  · intro h hk
    rcases List.mem_map.mp hk with ⟨p, hp, hpk⟩
    have hb := h p hp
    rw [bne_iff_ne] at hb
    exact hb hpk.symm
  · intro h p hp
    rw [bne_iff_ne]
    intro he
    exact h (List.mem_map.mpr ⟨p, hp, he.symm⟩)

theorem lookup_some_mem_keys {α : Type} {l : List (String × α)} {k : String}
    {v : α} (h : l.lookup k = some v) : k ∈ l.map Prod.fst := by
  by_contra hk
  have hnone := (lookup_none_iff_not_mem_keys l k).mpr hk
  rw [h] at hnone
  cases hnone

theorem string_append_right_cancel {a b t : String} (h : a ++ t = b ++ t) :
    a = b := by
  have hd := congrArg String.data h
  rw [String.data_append, String.data_append] at hd
  exact String.ext (List.append_left_injective t.data hd)

theorem mem_get_trio_samples_iff (pedigree : List (String × PedigreeEntry))
    (results : List String) (s : String) (e : PedigreeEntry) :
    ((s ++ "-trio"), e) ∈ get_trio_samples pedigree results ↔
      ((s, e) ∈ pedigree ∧ s ∈ results ∧ e.PaternalID ∈ results ∧
        e.MaternalID ∈ results) := by
  unfold get_trio_samples
  rw [List.mem_filterMap]
  constructor
  · rintro ⟨⟨s', e'⟩, hmem, hsome⟩
    dsimp only at hsome
    by_cases hcond : s' ∈ results ∧ e'.PaternalID ∈ results ∧
        e'.MaternalID ∈ results
    · rw [if_pos hcond] at hsome
      rw [Option.some.injEq, Prod.mk.injEq] at hsome
      obtain ⟨h1, h2⟩ := hsome
      have hs : s' = s := string_append_right_cancel h1
      subst hs
      subst h2
      exact ⟨hmem, hcond⟩
    · rw [if_neg hcond] at hsome
      cases hsome
  · rintro ⟨hped, h1, h2, h3⟩
    exact ⟨(s, e), hped, by rw [if_pos ⟨h1, h2, h3⟩]⟩

/-- An individual has produced a non-empty partition map. -/
def hasNonemptyMap (sb : List (String × List (String × BamPaths)))
    (x : String) : Prop :=
  ∃ m, (x, m) ∈ sb ∧ m ≠ []

theorem mem_keys_iff_hasNonemptyMap
    {sb : List (String × List (String × BamPaths))}
    (hne : ∀ p ∈ sb, p.2 ≠ ([] : List (String × BamPaths))) (x : String) :
    x ∈ sb.map Prod.fst ↔ hasNonemptyMap sb x := by
  constructor
  · intro hx
    rcases List.mem_map.mp hx with ⟨p, hp, hpx⟩
    refine ⟨p.2, ?_, hne p hp⟩
    rw [← hpx]
    simpa using hp
  · rintro ⟨m, hm, _⟩
    exact List.mem_map.mpr ⟨(x, m), hm, rfl⟩

/-- C5: in a completed run the processed samples are exactly the keys of
`all_split_bams` and each of their partition maps is non-empty
(`process_individual_sample` aborts the run otherwise), which the
hypotheses record.  Then (i) a pedigree entry is selected as a family
exactly when the individual and both its named parents all have non-empty
partition maps available; (ii) when any of the three lacks one,
`make_trio_table_entries` returns an empty row list with no error — the
absence of a qualifying family is silent; (iii) removing any one of the
three from the processed samples removes the family. -/
theorem c5_family_iff (pedigree : List (String × PedigreeEntry))
    (splitBams : List (String × List (String × BamPaths)))
    (hne : ∀ p ∈ splitBams, p.2 ≠ ([] : List (String × BamPaths)))
    (s : String) (e : PedigreeEntry) (hid : e.IndividualID = s) :
    (((s ++ "-trio"), e) ∈ get_trio_samples pedigree (splitBams.map Prod.fst) ↔
      ((s, e) ∈ pedigree ∧ hasNonemptyMap splitBams e.IndividualID ∧
        hasNonemptyMap splitBams e.PaternalID ∧
        hasNonemptyMap splitBams e.MaternalID)) ∧
    (∀ procal patcal matcal config pres,
      ¬(hasNonemptyMap splitBams e.IndividualID ∧
        hasNonemptyMap splitBams e.PaternalID ∧
        hasNonemptyMap splitBams e.MaternalID) →
      make_trio_table_entries e procal patcal matcal splitBams config pres
        = .ok []) ∧
    (∀ x, (x = s ∨ x = e.PaternalID ∨ x = e.MaternalID) →
      ((s ++ "-trio"), e) ∉ get_trio_samples pedigree
        ((splitBams.map Prod.fst).filter (fun y => y != x))) := by
  refine ⟨?_, ?_, ?_⟩
  · rw [mem_get_trio_samples_iff]
    simp only [mem_keys_iff_hasNonemptyMap hne]
    rw [hid]
  · intro procal patcal matcal config pres hnot
    have hcond : e.IndividualID ∉ splitBams.map Prod.fst ∨
        e.PaternalID ∉ splitBams.map Prod.fst ∨
        e.MaternalID ∉ splitBams.map Prod.fst := by
      by_contra hcon
      push_neg at hcon
      exact hnot ⟨(mem_keys_iff_hasNonemptyMap hne _).mp hcon.1,
        (mem_keys_iff_hasNonemptyMap hne _).mp hcon.2.1,
        (mem_keys_iff_hasNonemptyMap hne _).mp hcon.2.2⟩
    unfold make_trio_table_entries
    rw [if_pos hcond]
  · intro x hx hmem
    obtain ⟨hped, h1, h2, h3⟩ :=
      (mem_get_trio_samples_iff pedigree _ s e).mp hmem
    rcases hx with rfl | rfl | rfl
    · rcases List.mem_filter.mp h1 with ⟨_, hb⟩
      simp at hb
    · rcases List.mem_filter.mp h2 with ⟨_, hb⟩
      simp at hb
    · rcases List.mem_filter.mp h3 with ⟨_, hb⟩
      simp at hb

/-- Witness for C5: a three-member family with non-empty partition maps is
selected, and dropping the father's map silences the family without an
error. -/
theorem c5_family_iff_witness :
    (("kid" ++ "-trio", (⟨"fam", "kid", "dad", "mom", "Male", "2"⟩ : PedigreeEntry)) ∈
      get_trio_samples [("kid", ⟨"fam", "kid", "dad", "mom", "Male", "2"⟩)]
        (([("kid", [("SMN1", ⟨"a", "b"⟩)]), ("dad", [("SMN1", ⟨"c", "d"⟩)]),
          ("mom", [("SMN1", ⟨"e", "f"⟩)])] :
            List (String × List (String × BamPaths))).map Prod.fst)) ∧
    make_trio_table_entries (⟨"fam", "kid", "dad", "mom", "Male", "2"⟩ : PedigreeEntry)
        (some [("SMN1", [])]) (some [("SMN1", [])]) (some [("SMN1", [])])
        [("kid", [("SMN1", ⟨"a", "b"⟩)]), ("mom", [("SMN1", ⟨"e", "f"⟩)])]
        [] ⟨"kid", "", []⟩
      = .ok [] := by
  constructor
  · apply (c5_family_iff [("kid", ⟨"fam", "kid", "dad", "mom", "Male", "2"⟩)]
      [("kid", [("SMN1", ⟨"a", "b"⟩)]), ("dad", [("SMN1", ⟨"c", "d"⟩)]),
        ("mom", [("SMN1", ⟨"e", "f"⟩)])] (by decide) "kid"
      ⟨"fam", "kid", "dad", "mom", "Male", "2"⟩ rfl).1.mpr
    refine ⟨by decide, ?_, ?_, ?_⟩
    · exact ⟨[("SMN1", ⟨"a", "b"⟩)], by decide, by decide⟩
    · exact ⟨[("SMN1", ⟨"c", "d"⟩)], by decide, by decide⟩
    · exact ⟨[("SMN1", ⟨"e", "f"⟩)], by decide, by decide⟩
  · apply (c5_family_iff [("kid", ⟨"fam", "kid", "dad", "mom", "Male", "2"⟩)]
      [("kid", [("SMN1", ⟨"a", "b"⟩)]), ("mom", [("SMN1", ⟨"e", "f"⟩)])]
      (by decide) "kid" ⟨"fam", "kid", "dad", "mom", "Male", "2"⟩ rfl).2.1
      (some [("SMN1", [])]) (some [("SMN1", [])]) (some [("SMN1", [])]) []
      ⟨"kid", "", []⟩
    rintro ⟨_, ⟨m, hm, _⟩, _⟩
    rcases List.mem_cons.mp hm with h | h
    · have h1 : ("dad" : String) = "kid" := by
        simpa using congrArg Prod.fst h
      exact absurd h1 (by decide)
    · have h1 : ("dad" : String) = "mom" := by
        simpa using congrArg Prod.fst (List.mem_singleton.mp h)
      exact absurd h1 (by decide)

/-- C6: when the per-sample call-metadata source is absent, empty or
malformed, `unpack_json` logs a warning and returns None — but
`make_table_entries` iterates the result with no None check
(`process_paraphase.py` lines 192-195), so individual aggregation raises an
uncaught TypeError that aborts the run, instead of producing no rows and
continuing.  This evaluates the code at the failing input, contradicting
the claim. -/
theorem c6_metadata_crash (src : JsonSource Calls) (pres : ParaphaseResults)
    (ped : Option PedigreeEntry) (split_bams : List (String × BamPaths))
    (config : Config) (hnone : unpack_json src = none) :
    make_table_entries pres ped split_bams config (unpack_json src)
      = .error (.typeError "argument of type NoneType is not iterable") := by
  rw [hnone]
  rfl

/-- Witness for C6: a malformed (for example zero-byte) call-metadata file
crashes the aggregation. -/
theorem c6_metadata_crash_witness :
    make_table_entries ⟨"s1", "", []⟩ none [] []
        (unpack_json (JsonSource.malformed : JsonSource Calls))
      = .error (.typeError "argument of type NoneType is not iterable") :=
  c6_metadata_crash JsonSource.malformed ⟨"s1", "", []⟩ none [] [] rfl

theorem trioRegions_keyerror (trio : PedigreeEntry) (pm mm : Calls)
    (sb : List (String × List (String × BamPaths))) (config : Config)
    (pres : ParaphaseResults) :
    ∀ pcalls : List (String × RegionData),
      (∃ r, r ∈ pcalls.map Prod.fst ∧
        (r ∉ pm.map Prod.fst ∨ r ∉ mm.map Prod.fst)) →
      ∃ r', trioRegions trio (some pm) (some mm) sb config pres pcalls
          = .error (.keyError r') ∧
        (r' ∉ pm.map Prod.fst ∨ r' ∉ mm.map Prod.fst) := by
  intro pcalls
  induction pcalls with
  | nil =>
    rintro ⟨r, hr, _⟩
    simp at hr
  | cons p rest ih =>
    rintro ⟨r, hr, hmiss⟩
    obtain ⟨region, region_data⟩ := p
    cases hp : pm.lookup region with
    | none =>
      refine ⟨region, ?_, Or.inl ((lookup_none_iff_not_mem_keys pm region).mp hp)⟩
      simp only [trioRegions, fetchRegion, hp]
    | some pd =>
      cases hm : mm.lookup region with
      | none =>
        refine ⟨region, ?_, Or.inr ((lookup_none_iff_not_mem_keys mm region).mp hm)⟩
        simp only [trioRegions, fetchRegion, hp, hm]
      | some md =>
        have hrrest : r ∈ rest.map Prod.fst := by
          rcases (by simpa using hr : r = region ∨ r ∈ rest.map Prod.fst) with
            rfl | hrest
          · exfalso
            rcases hmiss with hmiss | hmiss
            · exact hmiss (lookup_some_mem_keys hp)
            · exact hmiss (lookup_some_mem_keys hm)
          · exact hrest
        obtain ⟨r', herr, h'⟩ := ih ⟨r, hrrest, hmiss⟩
        refine ⟨r', ?_, h'⟩
        simp only [trioRegions, fetchRegion, hp, hm]
        split
        · exact herr
        · split
          · exact herr
          · rw [herr]

/-- C10: in trio aggregation, for every region key of the proband's
call-metadata, the paternal and maternal call-metadata mappings are indexed
directly (lines 109-110 of `process_paraphase.py`) before the split-bam
membership check (lines 112-117): when either parent's call-metadata lacks
a region the proband has, `make_trio_table_entries` raises an unhandled
KeyError instead of skipping the region, even when all three partition
maps are present and non-empty. -/
theorem c10_trio_keyerror (trio : PedigreeEntry) (pcalls pm mm : Calls)
    (sb : List (String × List (String × BamPaths))) (config : Config)
    (pres : ParaphaseResults)
    (hind : trio.IndividualID ∈ sb.map Prod.fst)
    (hpat : trio.PaternalID ∈ sb.map Prod.fst)
    (hmat : trio.MaternalID ∈ sb.map Prod.fst)
    (hmiss : ∃ r, r ∈ pcalls.map Prod.fst ∧
      (r ∉ pm.map Prod.fst ∨ r ∉ mm.map Prod.fst)) :
    ∃ r', make_trio_table_entries trio (some pcalls) (some pm) (some mm)
        sb config pres = .error (.keyError r') ∧
      (r' ∉ pm.map Prod.fst ∨ r' ∉ mm.map Prod.fst) := by
  obtain ⟨r', herr, h'⟩ :=
    trioRegions_keyerror trio pm mm sb config pres pcalls hmiss
  refine ⟨r', ?_, h'⟩
  unfold make_trio_table_entries
  rw [if_neg (by
    rintro (h | h | h)
    · exact h hind
    · exact h hpat
    · exact h hmat)]
  exact herr

/-- Witness for C10: the father's call-metadata lacks region "SMN1" which
the proband has; all three partition maps are non-empty, yet the family
aggregation errors with a KeyError. -/
theorem c10_trio_keyerror_witness :
    ∃ r', make_trio_table_entries
        (⟨"fam", "kid", "dad", "mom", "Male", "2"⟩ : PedigreeEntry)
        (some [("SMN1", [])]) (some []) (some [("SMN1", [])])
        [("kid", [("SMN1", ⟨"a", "b"⟩)]), ("dad", [("SMN1", ⟨"c", "d"⟩)]),
          ("mom", [("SMN1", ⟨"e", "f"⟩)])]
        [] ⟨"kid", "", []⟩
        = .error (.keyError r') ∧
      (r' ∉ ([] : Calls).map Prod.fst ∨
        r' ∉ ([("SMN1", ([] : RegionData))] : Calls).map Prod.fst) :=
  c10_trio_keyerror ⟨"fam", "kid", "dad", "mom", "Male", "2"⟩
    [("SMN1", [])] [] [("SMN1", [])]
    [("kid", [("SMN1", ⟨"a", "b"⟩)]), ("dad", [("SMN1", ⟨"c", "d"⟩)]),
      ("mom", [("SMN1", ⟨"e", "f"⟩)])] [] ⟨"kid", "", []⟩
    (by decide) (by decide) (by decide)
    ⟨"SMN1", by decide, Or.inl (by decide)⟩

end Paraviewer
